import Mathlib

/-!
# chrome-time-tracker — verification of the tracking core

Shallow embedding of the tracking session state machine and durability
pipeline of the `hubwriter/chrome-time-tracker` extension, together with
proofs settling the frozen claims C1–C10.

The repository contains several superseding iterations of the background
script.  The embedding keeps them apart:

* namespace `TK` — the `TimeTracker` class of `src/scripts/background.js`
  (first iteration in that file, "Enhanced Background Script");
* namespace `SW` — the service-worker iteration of `src/unnamed/part_004`
  (`TrackingState`, `handleUrlChange`, `saveTimeData`,
  `restoreAutoResumeTimer`, `calculateDataCutoffDate`, …);
* namespace `BG` — the plain-function iteration that appears both as the
  second document of `src/scripts/background.js` and in `part_004`
  (`getTrackingState`, `saveTimeData`).

Strings are modelled as `List Char` (`Str`).  Times and durations are
modelled as `Int` milliseconds (JavaScript numbers at integral values).

The platform primitive `new URL(...)` is modelled by `parseUrl`, a parser
for hierarchical `scheme://host/path?query#fragment` addresses: the scheme
is the part before the first `:` (non-empty, a letter followed by letters,
digits, `+`, `-`, `.`), it must be followed by `//`; for the special
schemes (`http`, `https`, `ws`, `wss`, `ftp`) additional leading slashes
are skipped, an empty host is a parse failure and an empty path becomes
`/`.  The model omits canonicalisations that are idempotent and orthogonal
to the claims: case normalisation, percent-encoding, dot-segment removal,
default-port elision and userinfo splitting (the `host` component here is
the raw authority, which also matches `url.host` carrying a port).
Addresses without `://` (e.g. `mailto:` or `about:` forms) are treated as
unparseable.  Event handlers are modelled as run-to-completion functions;
the one place the spec itself locates a genuine interleaving (the
read/write halves of a flush, claim C2) is modelled by an explicit
schedule semantics.
-/

abbrev Str := List Char

def strL (s : String) : Str := s.toList

/-- Character classes used by the URL parser model. -/
def isAlphaChar (c : Char) : Bool :=
  ('a' ≤ c && c ≤ 'z') || ('A' ≤ c && c ≤ 'Z')

def isDigitChar (c : Char) : Bool := '0' ≤ c && c ≤ '9'

def isSchemeChar (c : Char) : Bool :=
  isAlphaChar c || isDigitChar c || c == '+' || c == '-' || c == '.'

/-- Characters that terminate the authority (host) component. -/
def hostChar (c : Char) : Bool := !(c == '/' || c == '?' || c == '#')

/-- Characters that terminate the path component. -/
def pathChar (c : Char) : Bool := !(c == '?' || c == '#')

/-- The WHATWG special schemes relevant here. -/
def isSpecial (scheme : Str) : Bool :=
  scheme == strL "http" || scheme == strL "https" || scheme == strL "ws" ||
    scheme == strL "wss" || scheme == strL "ftp"

/-- Split a string at the first `:`; `none` when there is no colon. -/
def splitAtColon : Str → Option (Str × Str)
  | [] => none
  | c :: cs =>
    if c = ':' then some ([], cs)
    else
      match splitAtColon cs with
      | some (a, b) => some (c :: a, b)
      | none => none

/-- Components of a parsed address, as exposed by the platform `URL`
object: `protocol` is `scheme ++ ":"`, `search`/`hash` are stored without
their leading `?`/`#`. -/
structure UrlParts where
  scheme : Str
  host : Str
  pathname : Str
  search : Str
  hash : Str
deriving DecidableEq

/-- The query component: everything between a leading `?` and the first
`#` of the part of the address after the path. -/
def suffixSearch (qf : Str) : Str :=
  match qf with
  | '?' :: q => q.takeWhile (fun c => c ≠ '#')
  | _ => []

/-- The fragment component: everything after the first `#` of the part of
the address after the path. -/
def suffixFrag (qf : Str) : Str :=
  match qf.dropWhile (fun c => c ≠ '#') with
  | '#' :: h => h
  | _ => []

/-- Model of the platform URL parser (`new URL(raw)`), for hierarchical
addresses; see the header comment for its scope. -/
def parseUrl (url : Str) : Option UrlParts :=
  match splitAtColon url with
  | none => none
  | some ([], _) => none
  | some (c0 :: srest, rest) =>
    if ¬ (isAlphaChar c0 && (c0 :: srest).all isSchemeChar) then none
    else
      match rest with
      | '/' :: '/' :: r2 =>
        let scheme := c0 :: srest
        let r3 := if isSpecial scheme then r2.dropWhile (fun c => c = '/') else r2
        let host := r3.takeWhile hostChar
        let afterHost := r3.dropWhile hostChar
        let path0 := afterHost.takeWhile pathChar
        let afterPath := afterHost.dropWhile pathChar
        let pathname := if isSpecial scheme ∧ path0 = [] then ['/'] else path0
        if isSpecial scheme ∧ host = [] then none
        else some ⟨scheme, host, pathname, suffixSearch afterPath, suffixFrag afterPath⟩
      | _ => none

namespace TK

/-- `TimeTracker.normalizeUrl` (src/scripts/background.js, lines 301–325):
drop query and fragment, strip one leading `www.`, strip one trailing `/`
unless the path is exactly `/`, reassemble; on a parse failure return the
raw input unchanged. -/
def normalizeUrl (url : Str) : Str :=
  match parseUrl url with
  | none => url
  | some u =>
    let hostname := if (strL "www.").isPrefixOf u.host then u.host.drop 4 else u.host
    let pathname :=
      if u.pathname ≠ strL "/" ∧ u.pathname.getLast? = some '/' then
        u.pathname.dropLast
      else u.pathname
    u.scheme ++ strL "://" ++ hostname ++ pathname

/-- `TimeTracker.isValidUrl` (src/scripts/background.js, lines 235–250):
reject falsy, browser-internal and known-bad addresses, then require the
address to parse. -/
def isValidUrl (url : Str) : Bool :=
  if url = [] then false
  else if (strL "chrome://").isPrefixOf url then false
  else if (strL "chrome-extension://").isPrefixOf url then false
  else if (strL "edge://").isPrefixOf url then false
  else if (strL "about:").isPrefixOf url then false
  else if url = strL "data:text/html,chromewebdata" then false
  else (parseUrl url).isSome

end TK

namespace SW

/-- `CONFIG.MIN_VISIT_DURATION_MS` (src/unnamed/part_004, line 51). -/
def MIN_VISIT_DURATION_MS : Int := 3000

/-- `CONFIG.DATA_RETENTION_MONTHS` (src/unnamed/part_004, line 48). -/
def DATA_RETENTION_MONTHS : Nat := 3

/-- `TrackingState.isValidDuration` (src/unnamed/part_004, lines 87–89). -/
def isValidDuration (durationMs : Int) : Bool :=
  durationMs ≥ MIN_VISIT_DURATION_MS

/-- `TrackingState.isValidUrl` (src/unnamed/part_004, lines 82–85): falsy
addresses and the two excluded prefixes are invalid; no parse check. -/
def isValidUrl (url : Str) : Bool :=
  if url = [] then false
  else !((strL "chrome://").isPrefixOf url || (strL "chrome-extension://").isPrefixOf url)

/-- `TrackingState.normalizeUrl` (src/unnamed/part_004, lines 91–102):
drop query and fragment only, reassemble `protocol//host pathname`; on a
parse failure (or falsy input) return the raw input unchanged. -/
def normalizeUrl (url : Str) : Str :=
  if url = [] then url
  else
    match parseUrl url with
    | none => url
    | some u => u.scheme ++ strL "://" ++ u.host ++ u.pathname

end SW

/-! ## Storage model

`chrome.storage.local` holds one `data_YYYY-MM-DD` record per day, each a
plain object mapping a tracking key to accumulated milliseconds.  JS
objects and the buffer `Map` are modelled as association lists in
insertion order; `obj[k] = (obj[k] || 0) + v` is `bump`, assignment of a
whole record is `setKey` (both update the first matching entry and append
when the key is absent, exactly like JS property assignment). -/

abbrev DayMap := List (Str × Int)

abbrev Storage := List (Str × DayMap)

def lookupA {α : Type} : List (Str × α) → Str → Option α
  | [], _ => none
  | (k, v) :: rest, key => if k = key then some v else lookupA rest key

/-- `existing[storageKey] || {}` / `result[key] || {}`. -/
def getMap (st : Storage) (k : Str) : DayMap := (lookupA st k).getD []

/-- `dayData[url] || 0`. -/
def getMs (m : DayMap) (u : Str) : Int := (lookupA m u).getD 0

/-- `dayData[url] = (dayData[url] || 0) + timeMs`. -/
def bump (m : DayMap) (u : Str) (v : Int) : DayMap :=
  match m with
  | [] => [(u, v)]
  | (k, w) :: rest => if k = u then (k, w + v) :: rest else (k, w) :: bump rest u v

/-- `storage[k] = v` (object property / `chrome.storage.local.set` of one
key). -/
def setKey (st : Storage) (k : Str) (v : DayMap) : Storage :=
  match st with
  | [] => [(k, v)]
  | (k0, v0) :: rest => if k0 = k then (k0, v) :: rest else (k0, v0) :: setKey rest k v

/-- The merge loop of `flushPendingData`: add every entry of `add` into
`base` (`for ([url, timeMs] of Object.entries(urlData)) dayData[url] += …`). -/
def mergeDay (base add : DayMap) : DayMap :=
  add.foldl (fun acc kv => bump acc kv.1 kv.2) base

/-- The buffering step of `TimeTracker.recordTimeSpent`: create the day
entry when absent, then `bump` the url inside it. -/
def pendingBump (p : Storage) (day u : Str) (v : Int) : Storage :=
  match p with
  | [] => [(day, bump [] u v)]
  | (d0, m0) :: rest =>
    if d0 = day then (d0, bump m0 u v) :: rest else (d0, m0) :: pendingBump rest day u v

/-- The storage key `data_${date}`. -/
def dataKey (day : Str) : Str := strL "data_" ++ day

/-- Total milliseconds buffered for `(d, u)` (summed over all matching
entries; for the maps actually built by `pendingBump` there is at most
one). -/
def sumD : DayMap → Str → Int
  | [], _ => 0
  | (k, v) :: rest, u => (if k = u then v else 0) + sumD rest u

def pendingTotal : Storage → Str → Str → Int
  | [], _, _ => 0
  | (d0, m) :: rest, d, u => (if d0 = d then sumD m u else 0) + pendingTotal rest d u

/-! ## The `TimeTracker` class of src/scripts/background.js (namespace `TK`) -/

namespace TK

/-- The mutable fields of the `TimeTracker` instance together with the
persistent per-day records (`storage`).  `Option` models JS `null`;
JS truthiness checks on these fields are spelled out where the code
performs them. -/
structure State where
  currentUrl : Option Str
  currentTabId : Option Int
  startTime : Option Int
  isTracking : Bool
  isChromeActive : Bool
  lastSaveTime : Int
  pendingData : Storage
  storage : Storage
deriving DecidableEq

/-- `TimeTracker.flushPendingData` (lines 130–154), success path: build
`updates` by reading each touched day record from storage and merging the
buffered deltas in, write all of them back with one `set`, then clear the
buffer.  Failure injection is modelled separately by `flushPendingDataF`. -/
def flushPendingData (s : State) : State :=
  if s.pendingData = [] then s
  else
    let updates := s.pendingData.map fun dm =>
      (dataKey dm.1, mergeDay (getMap s.storage (dataKey dm.1)) dm.2)
    { s with
      storage := updates.foldl (fun st kv => setKey st kv.1 kv.2) s.storage
      pendingData := [] }

/-- `TimeTracker.recordTimeSpent` (lines 327–348): buffer the delta under
`(today, url)`, then flush opportunistically when more than 10 s have
passed since the last save. -/
def recordTimeSpent (s : State) (today url : Str) (timeMs now : Int) : State :=
  let s1 := { s with pendingData := pendingBump s.pendingData today url timeMs }
  if now - s1.lastSaveTime > 10000 then
    { flushPendingData s1 with lastSaveTime := now }
  else s1

/-- `TimeTracker.pauseCurrentTracking` (lines 285–299): no-op on a falsy
`currentUrl`/`startTime`; otherwise record `now - startTime` when it is at
least 5000 ms and clear the session either way. -/
def pauseCurrentTracking (s : State) (now : Int) (today : Str) : State :=
  match s.currentUrl, s.startTime with
  | some url, some st =>
    if url = [] ∨ st = 0 then s
    else
      let timeSpent := now - st
      let s1 := if timeSpent ≥ 5000 then recordTimeSpent s today url timeSpent now else s
      { s1 with currentUrl := none, currentTabId := none, startTime := none }
  | _, _ => s

/-- `TimeTracker.startTrackingUrl` (lines 265–283): idempotent on the same
normalized url and tab; otherwise pause any current session, then open the
new one at `now`. -/
def startTrackingUrl (s : State) (url : Str) (tabId : Int) (now : Int) (today : Str) : State :=
  let normalizedUrl := normalizeUrl url
  if s.currentUrl = some normalizedUrl ∧ s.currentTabId = some tabId then s
  else
    let s1 :=
      if ¬ (s.currentUrl = none ∨ s.currentUrl = some []) then
        pauseCurrentTracking s now today
      else s
    { s1 with currentUrl := some normalizedUrl, currentTabId := some tabId, startTime := some now }

/-- `TimeTracker.handleTabChange` (lines 189–204): pause the current
session, then start tracking the activated tab when its url is valid. -/
def handleTabChange (s : State) (now : Int) (today : Str) (tabUrl : Option Str) (tabId : Int) :
    State :=
  if ¬ (s.isTracking ∧ s.isChromeActive) then s
  else
    let s1 := pauseCurrentTracking s now today
    match tabUrl with
    | some u => if u ≠ [] ∧ isValidUrl u then startTrackingUrl s1 u tabId now today else s1
    | none => s1

/-- Outcome of `TimeTracker.loadTrackingState` (lines 85–110):
the in-memory flag, the persisted `autoResumeTimer` value afterwards, and
the absolute time a resume callback was armed for (if any). -/
structure LoadResult where
  isTracking : Bool
  storedTimer : Option Int
  scheduledResumeAt : Option Int
deriving DecidableEq

/-- JS values that can sit under the `isTracking` storage key;
`undef` is an absent key. -/
inductive JSVal where
  | undef
  | boolean (b : Bool)
  | num (n : Int)
  | str (s : Str)
deriving DecidableEq

/-- `TimeTracker.loadTrackingState` (lines 85–110): `isTracking` defaults
to anything but the literal `false`; a still-running persisted timer is
re-armed for the remaining delay; an expired one is removed — and nothing
else happens to it. -/
def loadTrackingState (storedIsTracking : JSVal) (storedTimer : Option Int) (now : Int) :
    LoadResult :=
  let isTracking := storedIsTracking ≠ JSVal.boolean false
  match storedTimer with
  | some t =>
    if t = 0 then ⟨isTracking, some t, none⟩
    else if t > now then ⟨isTracking, some t, some t⟩
    else ⟨isTracking, none, none⟩
  | none => ⟨isTracking, none, none⟩

end TK

/-! ## The part_004 service worker (namespace `SW`) -/

namespace SW

/-- The session-relevant fields of `TrackingState` (src/unnamed/part_004,
lines 56–103) together with the persistent per-day records.  Idle is
`currentUrl = '' ∧ startTime = 0`, exactly as `reset()` leaves it. -/
structure TrackState where
  currentUrl : Str
  startTime : Int
  isTracking : Bool
  storage : Storage
deriving DecidableEq

/-- `getCurrentSession().duration` (lines 74–80). -/
def getSessionDuration (s : TrackState) (now : Int) : Int :=
  if s.startTime > 0 then now - s.startTime else 0

/-- `saveTimeData` (src/unnamed/part_004, lines 229–246): ignore
non-positive deltas, otherwise read-modify-write the day record. -/
def saveTimeData (st : Storage) (today url : Str) (timeMs : Int) : Storage :=
  if timeMs ≤ 0 then st
  else setKey st (dataKey today) (bump (getMap st (dataKey today)) url timeMs)

/-- `handleUrlChange` (src/unnamed/part_004, lines 198–227): an address
failing `isValidUrl` is ignored entirely; otherwise the previous session
is saved when it meets the minimum duration, and a new session starts on
the normalized url. -/
def handleUrlChange (s : TrackState) (rawUrl : Str) (now : Int) (today : Str) : TrackState :=
  if ¬ isValidUrl rawUrl then s
  else
    let normalizedUrl := normalizeUrl rawUrl
    let s1 :=
      if s.currentUrl ≠ [] ∧ s.startTime > 0 then
        let duration := getSessionDuration s now
        if isValidDuration duration then
          { s with storage := saveTimeData s.storage today s.currentUrl duration }
        else s
      else s
    { s1 with currentUrl := normalizedUrl, startTime := now }

/-- The persisted `autoResumeTimer` record `{endTime, active}`. -/
structure TimerRecord where
  endTime : Int
  active : Bool
deriving DecidableEq

/-- State touched by the auto-resume scheduler of src/unnamed/part_004:
the in-memory flag, the two persisted values, the armed timeout (as the
absolute end time) and how many times `executeAutoResume` has run. -/
structure ARState where
  isTracking : Bool
  storedIsTracking : Option Bool
  storedTimer : Option TimerRecord
  armedTimeout : Option Int
  resumeFireCount : Nat
deriving DecidableEq

/-- `saveTrackingState` (lines 167–175). -/
def saveTrackingState (s : ARState) (b : Bool) : ARState :=
  { s with isTracking := b, storedIsTracking := some b }

/-- `executeAutoResume` (lines 363–388): re-enable tracking, clear the
persisted record and the armed timeout.  (Re-deriving the foreground tab
and the notification are outside this model.) -/
def executeAutoResume (s : ARState) : ARState :=
  let s1 := saveTrackingState s true
  { s1 with storedTimer := none, armedTimeout := none,
            resumeFireCount := s1.resumeFireCount + 1 }

/-- `startBackgroundAutoResumeTimer` (lines 336–353): cancel any armed
timeout, then fire immediately when the delay is non-positive, else arm. -/
def startBackgroundAutoResumeTimer (s : ARState) (endTime now : Int) : ARState :=
  let s1 := { s with armedTimeout := none }
  if endTime - now ≤ 0 then executeAutoResume s1
  else { s1 with armedTimeout := some endTime }

/-- `restoreAutoResumeTimer` (src/unnamed/part_004, lines 390–409): on
restart, an inactive or absent record is ignored; a still-running one is
re-armed; an expired one fires immediately. -/
def restoreAutoResumeTimer (s : ARState) (now : Int) : ARState :=
  match s.storedTimer with
  | none => s
  | some t =>
    if ¬ t.active then s
    else if t.endTime - now > 0 then startBackgroundAutoResumeTimer s t.endTime now
    else executeAutoResume s

/-- `loadTrackingState` (src/unnamed/part_004, lines 156–165): any stored
value other than the literal `false` — including an absent key — means
enabled; a storage read failure also defaults to enabled. -/
def loadTrackingState (stored : TK.JSVal) (readFails : Bool) : Bool :=
  if readFails then true else stored ≠ TK.JSVal.boolean false

end SW

namespace BG

/-- `getTrackingState` (src/scripts/background.js, lines 662–671): reads
the flag fresh from storage, treats anything but the literal `false` as
enabled, and answers disabled when the read itself fails. -/
def getTrackingState (stored : TK.JSVal) (readFails : Bool) : Bool :=
  if readFails then false else stored ≠ TK.JSVal.boolean false

end BG

/-! ## Concurrent flushes (claim C2)

`TimeTracker.flushPendingData` (and likewise `saveTimeData`) performs
`existing = await get(key); dayData[url] = (dayData[url] || 0) + delta;
await set(updates)` with no serialization: between the read and the write
of one flush, the event loop may run the read or write of another.  The
model projects two racing flushes with deltas `a` and `b` for the same
day and tracking key onto that record's single cell: each flush has an
atomic read half (capture the stored value) and an atomic write half
(store the captured value plus its own delta).  A schedule is any
interleaving of the four halves that puts each read before its write. -/

inductive FlushOp where
  | read1
  | write1
  | read2
  | write2
deriving DecidableEq

structure FlushRace where
  stored : Int
  t1 : Option Int
  t2 : Option Int
deriving DecidableEq

def flushStep (a b : Int) (s : FlushRace) : FlushOp → FlushRace
  | .read1 => { s with t1 := some s.stored }
  | .write1 => { s with stored := s.t1.getD 0 + a }
  | .read2 => { s with t2 := some s.stored }
  | .write2 => { s with stored := s.t2.getD 0 + b }

def runSchedule (a b : Int) (s : FlushRace) (ops : List FlushOp) : FlushRace :=
  ops.foldl (flushStep a b) s

/-! ## Flush with storage failure (claim C9) -/

namespace TK

/-- The update-building loop of `flushPendingData` with fallible reads:
each day record is read (`readResult`), and a failing read aborts the
whole loop, as a thrown promise rejection does. -/
def buildUpdates (readResult : Str → Except Unit DayMap) (pending : Storage) :
    Except Unit (List (Str × DayMap)) :=
  pending.foldlM
    (fun acc dm => do
      let existing ← readResult (dataKey dm.1)
      pure (acc ++ [(dataKey dm.1, mergeDay existing dm.2)]))
    []

/-- `TimeTracker.flushPendingData` (lines 130–154) with failure
injection: a failing read or a failing `set` lands in the `catch` block,
which only logs — the buffer and the storage stay as they were.  The
buffer is cleared (and storage updated) only after the single `set` of
all updates succeeded. -/
def flushPendingDataF (readResult : Str → Except Unit DayMap) (writeOk : Bool) (s : State) :
    State :=
  if s.pendingData = [] then s
  else
    match buildUpdates readResult s.pendingData with
    | .error _ => s
    | .ok updates =>
      if writeOk then
        { s with
          storage := updates.foldl (fun st kv => setKey st kv.1 kv.2) s.storage
          pendingData := [] }
      else s

end TK

/-! ## Dates, rendering and the retention sweep (claim C8) -/

/-- A JS `Date` at day granularity; `month0` is 0-based as in
`Date.prototype.getMonth`. -/
structure JsDate where
  year : Nat
  month0 : Nat
  day : Nat
deriving DecidableEq

/-- The decimal digit characters, `String(n)` one digit at a time. -/
def digitChar (n : Nat) : Char :=
  match n with
  | 0 => '0'
  | 1 => '1'
  | 2 => '2'
  | 3 => '3'
  | 4 => '4'
  | 5 => '5'
  | 6 => '6'
  | 7 => '7'
  | 8 => '8'
  | _ => '9'

/-- `String(n)` for a natural number. -/
def natDigits (n : Nat) : Str :=
  if _h : n < 10 then [digitChar n]
  else natDigits (n / 10) ++ [digitChar (n % 10)]
decreasing_by exact Nat.div_lt_self (by omega) (by omega)

/-- `s.padStart(2, '0')`. -/
def jsPadStart2 (s : Str) : Str :=
  if s.length ≥ 2 then s else if s.length = 1 then '0' :: s else ['0', '0']

/-- `getLocalDateString` (src/unnamed/part_004, lines 497–502):
`${year}-${month+1 padded}-${day padded}`. -/
def getLocalDateString (dt : JsDate) : Str :=
  natDigits dt.year ++ '-' :: (jsPadStart2 (natDigits (dt.month0 + 1)) ++
    '-' :: jsPadStart2 (natDigits dt.day))

/-- `new Date(year, month0 - k, 1)` for `k ≤ 11` and a 0-based `month0 <
12`: JS rolls a negative month index into the previous year. -/
def jsDateMonthsBack (dt : JsDate) (k : Nat) : JsDate :=
  if dt.month0 ≥ k then ⟨dt.year, dt.month0 - k, 1⟩
  else ⟨dt.year - 1, dt.month0 + 12 - k, 1⟩

namespace SW

/-- The date triple behind `calculateDataCutoffDate` (src/unnamed/part_004,
lines 450–461): the first day of the month `DATA_RETENTION_MONTHS` before
the current one. -/
def cutoffDate (today : JsDate) : JsDate := jsDateMonthsBack today DATA_RETENTION_MONTHS

/-- `calculateDataCutoffDate` (src/unnamed/part_004, lines 450–461). -/
def calculateDataCutoffDate (today : JsDate) : Str := getLocalDateString (cutoffDate today)

end SW

/-- JS string `<` comparison: lexicographic by code point. -/
def lexLt : Str → Str → Bool
  | _, [] => false
  | [], _ :: _ => true
  | a :: as, b :: bs => decide (a < b) || (a == b && lexLt as bs)

/-- The `^\d{4}-\d{2}-\d{2}$` test of `findDataKeysToRemove`. -/
def isDateShape (s : Str) : Bool :=
  match s with
  | [a, b, c, d, e, f, g, h2, i, j] =>
    isDigitChar a && isDigitChar b && isDigitChar c && isDigitChar d &&
      e == '-' && isDigitChar f && isDigitChar g && h2 == '-' &&
      isDigitChar i && isDigitChar j
  | _ => false

namespace SW

/-- `findDataKeysToRemove` (src/unnamed/part_004, lines 463–479): keep the
keys that start with `data_`, whose date part matches `YYYY-MM-DD`, and
whose date part compares strictly below the cutoff string. -/
def findDataKeysToRemove (allKeys : List Str) (cutoffDateStr : Str) : List Str :=
  allKeys.filter fun key =>
    (strL "data_").isPrefixOf key &&
      (isDateShape (key.drop 5) && lexLt (key.drop 5) cutoffDateStr)

end SW

/-- Spec-side strict order on calendar dates (claim C8's "strictly before
the cutoff"). -/
def dateTripleLt (a b : JsDate) : Prop :=
  a.year < b.year ∨ (a.year = b.year ∧
    (a.month0 < b.month0 ∨ (a.month0 = b.month0 ∧ a.day < b.day)))

/-- Spec-side "from month M-2 onward": the record's month is at least the
month two before `today`'s. -/
def monthFromMMinus2 (rec today : JsDate) : Prop :=
  let mb2 := jsDateMonthsBack today 2
  mb2.year < rec.year ∨ (mb2.year = rec.year ∧ mb2.month0 ≤ rec.month0)

instance (a b : JsDate) : Decidable (dateTripleLt a b) := by
  unfold dateTripleLt
  infer_instance

instance (a b : JsDate) : Decidable (monthFromMMinus2 a b) := by
  unfold monthFromMMinus2
  infer_instance

namespace TK

/-- Gregorian leap-year test, as JS `Date` arithmetic uses it. -/
def isLeapYear (y : Nat) : Bool :=
  (y % 4 == 0 && y % 100 != 0) || y % 400 == 0

/-- Length of calendar month `m0` (0-based) of year `y`. -/
def daysInMonth (y : Nat) (m0 : Nat) : Nat :=
  if m0 = 1 then (if isLeapYear y then 29 else 28)
  else if m0 = 3 ∨ m0 = 5 ∨ m0 = 8 ∨ m0 = 10 then 30
  else 31

/-- The `threeMonthsAgo` date of `cleanupOldData` (src/scripts/background.js,
lines 352–353): `setMonth(getMonth() - 3)` keeps the day-of-month, rolls a
negative month index into the previous year, and overflows a day beyond the
target month's length into the following month, as JS `Date` does. -/
def threeMonthsAgo (dt : JsDate) : JsDate :=
  let y := if dt.month0 ≥ 3 then dt.year else dt.year - 1
  let m := if dt.month0 ≥ 3 then dt.month0 - 3 else dt.month0 + 9
  if dt.day ≤ daysInMonth y m then ⟨y, m, dt.day⟩
  else if m = 11 then ⟨y + 1, 0, dt.day - daysInMonth y m⟩
  else ⟨y, m + 1, dt.day - daysInMonth y m⟩

end TK

/-- The year-and-month part of `civilDays`: the standard days-from-civil
closed form, counting years from March so the leap day falls at a year
boundary. -/
def civilDaysBase (y m0 : Nat) : Nat :=
  let yy := if m0 ≥ 2 then y else y - 1
  let mp := if m0 ≥ 2 then m0 - 2 else m0 + 10
  yy * 365 + yy / 4 - yy / 100 + yy / 400 + (153 * mp + 2) / 5

/-- A civil day number for a date triple: strictly increasing with the
proleptic Gregorian calendar and equal to the Unix-epoch day count up to a
fixed constant shift, which cancels in the instant comparisons below. -/
def civilDays (dt : JsDate) : Nat := civilDaysBase dt.year dt.month0 + dt.day

namespace TK

/-- Milliseconds per day. -/
def msPerDay : Int := 86400000

/-- The instant held by `threeMonthsAgo` in `cleanupOldData`: the rolled-back
date's UTC midnight plus `tod`, the signed millisecond offset of the current
instant from that midnight (the local time of day minus the timezone offset,
both carried along unchanged by `setMonth`). -/
def cleanupCutoff (dt : JsDate) (tod : Int) : Int :=
  (civilDays (threeMonthsAgo dt) : Int) * msPerDay + tod

/-- The removal test of `cleanupOldData` (src/scripts/background.js, lines
358–366) on a storage key `data_YYYY-MM-DD` whose date part renders the
triple `rec`: `new Date(dateStr)` on such a string is the UTC midnight of
that calendar day, and the key is collected exactly when that instant is
strictly below `threeMonthsAgo`. -/
def cleanupRemoves (today : JsDate) (tod : Int) (rec : JsDate) : Bool :=
  decide ((civilDays rec : Int) * msPerDay < cleanupCutoff today tod)

end TK

/-! ## Session/flush event traces (claims C1, C3) -/

namespace TK

/-- The session-clock events that feed the accumulation pipeline: a new
foreground target (`startTrackingUrl`), a session end
(`pauseCurrentTracking`), and a timer flush (`flushPendingData`).  Each
carries the wall clock and calendar day at which it runs. -/
inductive Ev where
  | start (now : Int) (today : Str) (url : Str) (tabId : Int)
  | pause (now : Int) (today : Str)
  | doFlush
deriving DecidableEq

def step (s : State) : Ev → State
  | .start now today url tabId => startTrackingUrl s url tabId now today
  | .pause now today => pauseCurrentTracking s now today
  | .doFlush => flushPendingData s

def run (s : State) : List Ev → State
  | [] => s
  | e :: rest => run (step s e) rest

/-- Whether `pauseCurrentTracking` would actually finalize (i.e. the
session fields are truthy). -/
def sessionActive (cur : Option Str) (st : Option Int) : Bool :=
  match cur, st with
  | some url, some t => decide (¬ (url = [] ∨ t = 0))
  | _, _ => false

/-- The delta a session `(cur, st)` contributes to `(d, u)` when finalized
at `now` on day `today`: its elapsed time when the session is truthy,
meets the 5000 ms bar, ended on day `d` and tracked key `u`. -/
def sessionDelta (cur : Option Str) (st : Option Int) (now : Int) (today d u : Str) : Int :=
  match cur, st with
  | some url, some t =>
    if url = [] ∨ t = 0 then 0
    else if now - t ≥ 5000 ∧ d = today ∧ url = u then now - t else 0
  | _, _ => 0

/-- Specification-side account for claim C3: the sum of the elapsed times
of the sessions that a trace ends (by a new target or a pause) with
tracking key `u` on day `d` and that meet the minimum-duration threshold.
It follows only the session fields and ignores `doFlush` entirely — this
is the flush-count-invariant quantity the recorded data must equal. -/
def qualSum (cur : Option Str) (tab : Option Int) (st : Option Int) (d u : Str) :
    List Ev → Int
  | [] => 0
  | .pause now today :: rest =>
    if sessionActive cur st then
      sessionDelta cur st now today d u + qualSum none none none d u rest
    else qualSum cur tab st d u rest
  | .start now today url tabId :: rest =>
    let n := normalizeUrl url
    if cur = some n ∧ tab = some tabId then qualSum cur tab st d u rest
    else
      sessionDelta cur st now today d u + qualSum (some n) (some tabId) (some now) d u rest
  | .doFlush :: rest => qualSum cur tab st d u rest

/-- The tracker as constructed (constructor, lines 5–16). -/
def initState : State :=
  { currentUrl := none, currentTabId := none, startTime := none,
    isTracking := false, isChromeActive := true, lastSaveTime := 0,
    pendingData := [], storage := [] }

/-- Milliseconds durably recorded for key `u` on day `d`. -/
def storedMs (s : State) (d u : Str) : Int := getMs (getMap s.storage (dataKey d)) u

/-- Buffered-plus-durable milliseconds for `(d, u)`: the quantity a flush
conserves. -/
def accounted (s : State) (d u : Str) : Int :=
  storedMs s d u + pendingTotal s.pendingData d u

end TK

/-- The buffer `Map` of `TimeTracker.pendingData` has one entry per day
(a `Map` cannot hold duplicate keys); association lists built by
`pendingBump` keep that shape. -/
def daysNodup (p : Storage) : Prop := (p.map Prod.fst).Nodup

/-! # Lemmas and claim theorems -/

theorem getMs_bump (m : DayMap) (u : Str) (v : Int) (u' : Str) :
    getMs (bump m u v) u' = getMs m u' + (if u' = u then v else 0) := by
  induction m with
  | nil =>
    by_cases h : u = u'
    · simp [bump, getMs, lookupA, h]
    · simp [bump, getMs, lookupA, h, Ne.symm h]
  | cons kv rest ih =>
    obtain ⟨k, w⟩ := kv
    by_cases hk : k = u
    · by_cases h : k = u'
      · simp [bump, getMs, lookupA, hk, h, h.symm.trans hk]
      · simp [bump, getMs, lookupA, hk, h,
          show ¬ u' = u from fun he => h (hk.trans he.symm),
          show ¬ u = u' from fun he => h (hk.trans he)]
    · by_cases h : k = u'
      · simp [bump, getMs, lookupA, hk, h,
          show ¬ u' = u from fun he => hk (h.trans he)]
      · simp only [bump, if_neg hk, getMs, lookupA, if_neg h]
        exact ih

theorem sumD_bump (m : DayMap) (u : Str) (v : Int) (u' : Str) :
    sumD (bump m u v) u' = sumD m u' + (if u = u' then v else 0) := by
  induction m with
  | nil =>
    by_cases h : u = u' <;> simp [bump, sumD, h]
  | cons kv rest ih =>
    obtain ⟨k, w⟩ := kv
    by_cases hk : k = u
    · by_cases h : k = u'
      · simp only [bump, if_pos hk, sumD, if_pos h, hk.symm.trans h, if_pos]
        ring
      · simp only [bump, if_pos hk, sumD, if_neg h,
          if_neg (show ¬ u = u' from fun he => h (hk.trans he))]
        ring
    · simp only [bump, if_neg hk, sumD]
      rw [ih]
      ring

theorem getMs_mergeDay (add : DayMap) (base : DayMap) (u : Str) :
    getMs (mergeDay base add) u = getMs base u + sumD add u := by
  induction add generalizing base with
  | nil => simp [mergeDay, sumD]
  | cons kv rest ih =>
    obtain ⟨k, v⟩ := kv
    show getMs (mergeDay (bump base k v) rest) u = _
    rw [ih, getMs_bump]
    simp only [sumD]
    by_cases h : k = u
    · simp only [if_pos h, if_pos h.symm]
      ring
    · simp only [if_neg h, if_neg (Ne.symm h)]
      ring

theorem lookupA_setKey (st : Storage) (k : Str) (v : DayMap) (k' : Str) :
    lookupA (setKey st k v) k' = if k' = k then some v else lookupA st k' := by
  induction st with
  | nil =>
    by_cases h : k = k'
    · simp [setKey, lookupA, h]
    · simp [setKey, lookupA, h, Ne.symm h]
  | cons kv rest ih =>
    obtain ⟨k0, v0⟩ := kv
    by_cases h0 : k0 = k
    · by_cases h : k0 = k'
      · simp [setKey, lookupA, h0, h, h.symm.trans h0]
      · simp [setKey, lookupA, h0, h,
          show ¬ k' = k from fun he => h (h0.trans he.symm),
          show ¬ k = k' from fun he => h (h0.trans he)]
    · by_cases h : k0 = k'
      · simp [setKey, lookupA, h0, h,
          show ¬ k' = k from fun he => h0 (h.trans he)]
      · simp only [setKey, if_neg h0, lookupA, if_neg h]
        exact ih

theorem getMap_setKey (st : Storage) (k : Str) (v : DayMap) (k' : Str) :
    getMap (setKey st k v) k' = if k' = k then v else getMap st k' := by
  unfold getMap
  rw [lookupA_setKey]
  by_cases h : k' = k <;> simp [h]

theorem pendingTotal_pendingBump (p : Storage) (day u : Str) (v : Int) (d u' : Str) :
    pendingTotal (pendingBump p day u v) d u'
      = pendingTotal p d u' + (if d = day ∧ u = u' then v else 0) := by
  induction p with
  | nil =>
    by_cases hd : day = d
    · simp [pendingBump, pendingTotal, hd, sumD_bump, sumD]
    · simp [pendingBump, pendingTotal, hd,
        if_neg (show ¬ (d = day ∧ u = u') from fun hc => hd hc.1.symm)]
  | cons dm rest ih =>
    obtain ⟨d0, m0⟩ := dm
    by_cases h0 : d0 = day
    · by_cases hd : d0 = d
      · have hdd : d = day := hd.symm.trans h0
        simp only [pendingBump, if_pos h0, pendingTotal, if_pos hd, sumD_bump, hdd,
          eq_self_iff_true, true_and]
        ring
      · simp only [pendingBump, if_pos h0, pendingTotal, if_neg hd,
          if_neg (show ¬ (d = day ∧ u = u') from
            fun hc => hd (h0.trans hc.1.symm))]
        ring
    · simp only [pendingBump, if_neg h0, pendingTotal]
      rw [ih]
      ring

theorem dataKey_inj {a b : Str} (h : dataKey a = dataKey b) : a = b := by
  unfold dataKey at h
  exact List.append_cancel_left h

theorem mem_map_fst_pendingBump (p : Storage) (day u : Str) (v : Int) (x : Str) :
    x ∈ (pendingBump p day u v).map Prod.fst ↔ x ∈ p.map Prod.fst ∨ x = day := by
  induction p with
  | nil => simp [pendingBump]
  | cons dm rest ih =>
    obtain ⟨d0, m0⟩ := dm
    by_cases h0 : d0 = day
    · subst h0
      simp only [pendingBump, if_pos rfl, List.map, List.mem_cons]
      constructor
      · intro h
        rcases h with h | h
        · exact Or.inl (Or.inl h)
        · exact Or.inl (Or.inr h)
      · intro h
        rcases h with (h | h) | h
        · exact Or.inl h
        · exact Or.inr h
        · exact Or.inl h.symm.symm
    · simp only [pendingBump, if_neg h0, List.map, List.mem_cons, ih]
      tauto

theorem daysNodup_pendingBump (p : Storage) (day u : Str) (v : Int)
    (hnd : daysNodup p) : daysNodup (pendingBump p day u v) := by
  induction p with
  | nil => simp [pendingBump, daysNodup]
  | cons dm rest ih =>
    obtain ⟨d0, m0⟩ := dm
    have hnd' : daysNodup rest := (List.nodup_cons.mp hnd).2
    have hd0 : d0 ∉ rest.map Prod.fst := (List.nodup_cons.mp hnd).1
    by_cases h0 : d0 = day
    · subst h0
      simpa [pendingBump, daysNodup, List.nodup_cons, hd0] using hnd'
    · simp only [pendingBump, if_neg h0, daysNodup, List.map, List.nodup_cons]
      refine ⟨?_, ih hnd'⟩
      rw [mem_map_fst_pendingBump]
      rintro (h | h)
      · exact hd0 h
      · exact h0 h

theorem foldl_setKey_updates (p : Storage) (base : Storage) (st : Storage)
    (hnd : daysNodup p)
    (hagree : ∀ dm ∈ p, getMap st (dataKey dm.1) = getMap base (dataKey dm.1))
    (d u : Str) :
    getMs (getMap ((p.map fun dm =>
          (dataKey dm.1, mergeDay (getMap base (dataKey dm.1)) dm.2)).foldl
        (fun acc kv => setKey acc kv.1 kv.2) st) (dataKey d)) u
      = getMs (getMap st (dataKey d)) u + pendingTotal p d u := by
  induction p generalizing st with
  | nil => simp [pendingTotal]
  | cons dm rest ih =>
    obtain ⟨d0, m0⟩ := dm
    have hnd' : daysNodup rest := (List.nodup_cons.mp hnd).2
    have hd0 : d0 ∉ rest.map Prod.fst := (List.nodup_cons.mp hnd).1
    simp only [List.map, List.foldl, pendingTotal]
    rw [ih _ hnd' ?agree]
    case agree =>
      intro dm hdm
      rw [getMap_setKey]
      have hne : ¬ dataKey dm.1 = dataKey d0 := by
        intro he
        exact hd0 (dataKey_inj he ▸ List.mem_map_of_mem Prod.fst hdm)
      rw [if_neg hne]
      exact hagree dm (List.mem_cons_of_mem _ hdm)
    rw [getMap_setKey]
    by_cases hd : d = d0
    · subst hd
      rw [if_pos rfl, getMs_mergeDay, hagree ⟨d, m0⟩ (List.mem_cons_self _ _)]
      simp only [eq_self_iff_true, if_true]
      ring
    · have hne : ¬ dataKey d = dataKey d0 := fun he => hd (dataKey_inj he)
      rw [if_neg hne, if_neg (show ¬ d0 = d from fun he => hd he.symm)]
      ring

theorem flushPendingData_pendingData (s : TK.State) :
    (TK.flushPendingData s).pendingData = [] := by
  unfold TK.flushPendingData
  by_cases h : s.pendingData = [] <;> simp [h]

theorem flushPendingData_storedMs (s : TK.State) (hnd : daysNodup s.pendingData)
    (d u : Str) :
    TK.storedMs (TK.flushPendingData s) d u
      = TK.storedMs s d u + pendingTotal s.pendingData d u := by
  unfold TK.flushPendingData
  by_cases h : s.pendingData = []
  · simp [h, pendingTotal]
  · simp only [if_neg h]
    exact foldl_setKey_updates s.pendingData s.storage s.storage hnd (fun _ _ => rfl) d u

theorem flushPendingData_session (s : TK.State) :
    (TK.flushPendingData s).currentUrl = s.currentUrl ∧
    (TK.flushPendingData s).currentTabId = s.currentTabId ∧
    (TK.flushPendingData s).startTime = s.startTime ∧
    (TK.flushPendingData s).lastSaveTime = s.lastSaveTime := by
  unfold TK.flushPendingData
  by_cases h : s.pendingData = [] <;> simp [h]

theorem accounted_flushPendingData (s : TK.State) (hnd : daysNodup s.pendingData)
    (d u : Str) :
    TK.accounted (TK.flushPendingData s) d u = TK.accounted s d u := by
  unfold TK.accounted
  rw [flushPendingData_storedMs s hnd, flushPendingData_pendingData]
  simp [pendingTotal]

theorem recordTimeSpent_accounted (s : TK.State) (today url : Str) (v now : Int)
    (hnd : daysNodup s.pendingData) (d u : Str) :
    TK.accounted (TK.recordTimeSpent s today url v now) d u
      = TK.accounted s d u + (if d = today ∧ url = u then v else 0) := by
  unfold TK.recordTimeSpent
  have hb : daysNodup (pendingBump s.pendingData today url v) :=
    daysNodup_pendingBump s.pendingData today url v hnd
  by_cases h : now - s.lastSaveTime > 10000
  · simp only [if_pos h]
    have heq :
        TK.accounted
            { TK.flushPendingData { s with pendingData := pendingBump s.pendingData today url v }
              with lastSaveTime := now } d u
          = TK.accounted
              (TK.flushPendingData { s with pendingData := pendingBump s.pendingData today url v })
              d u := rfl
    rw [heq, accounted_flushPendingData _ hb]
    unfold TK.accounted TK.storedMs
    simp only
    rw [pendingTotal_pendingBump]
    ring
  · simp only [if_neg h]
    unfold TK.accounted TK.storedMs
    simp only
    rw [pendingTotal_pendingBump]
    ring

theorem recordTimeSpent_session (s : TK.State) (today url : Str) (v now : Int) :
    (TK.recordTimeSpent s today url v now).currentUrl = s.currentUrl ∧
    (TK.recordTimeSpent s today url v now).currentTabId = s.currentTabId ∧
    (TK.recordTimeSpent s today url v now).startTime = s.startTime := by
  unfold TK.recordTimeSpent
  by_cases h : now - s.lastSaveTime > 10000
  · simp only [if_pos h]
    have hs := flushPendingData_session
      { s with pendingData := pendingBump s.pendingData today url v }
    exact ⟨hs.1, hs.2.1, hs.2.2.1⟩
  · simp [if_neg h]

theorem recordTimeSpent_nodup (s : TK.State) (today url : Str) (v now : Int)
    (hnd : daysNodup s.pendingData) :
    daysNodup (TK.recordTimeSpent s today url v now).pendingData := by
  unfold TK.recordTimeSpent
  by_cases h : now - s.lastSaveTime > 10000
  · simp only [if_pos h]
    have := flushPendingData_pendingData
      { s with pendingData := pendingBump s.pendingData today url v }
    show daysNodup (TK.flushPendingData _).pendingData
    rw [this]
    simp [daysNodup]
  · simp only [if_neg h]
    exact daysNodup_pendingBump s.pendingData today url v hnd

theorem pauseCurrentTracking_accounted (s : TK.State) (now : Int) (today : Str)
    (hnd : daysNodup s.pendingData) (d u : Str) :
    TK.accounted (TK.pauseCurrentTracking s now today) d u
      = TK.accounted s d u + TK.sessionDelta s.currentUrl s.startTime now today d u := by
  unfold TK.pauseCurrentTracking TK.sessionDelta
  rcases hcu : s.currentUrl with _ | url <;> rcases hst : s.startTime with _ | t
  · simp [hcu, hst]
  · simp [hcu, hst]
  · simp [hcu, hst]
  · simp only [hcu, hst]
    by_cases hf : url = [] ∨ t = 0
    · simp [hf]
    · simp only [if_neg hf]
      by_cases h5 : now - t ≥ 5000
      · simp only [if_pos h5]
        have heq :
            TK.accounted
                { TK.recordTimeSpent s today url (now - t) now with
                  currentUrl := none, currentTabId := none, startTime := none } d u
              = TK.accounted (TK.recordTimeSpent s today url (now - t) now) d u := rfl
        rw [heq, recordTimeSpent_accounted s today url (now - t) now hnd]
        simp [h5]
      · have heq :
            TK.accounted
                { s with currentUrl := none, currentTabId := none, startTime := none } d u
              = TK.accounted s d u := rfl
        simp only [if_neg h5, heq]
        simp [h5]

theorem pauseCurrentTracking_session (s : TK.State) (now : Int) (today : Str) :
    (TK.pauseCurrentTracking s now today).currentUrl
        = (if TK.sessionActive s.currentUrl s.startTime then none else s.currentUrl) ∧
    (TK.pauseCurrentTracking s now today).currentTabId
        = (if TK.sessionActive s.currentUrl s.startTime then none else s.currentTabId) ∧
    (TK.pauseCurrentTracking s now today).startTime
        = (if TK.sessionActive s.currentUrl s.startTime then none else s.startTime) := by
  unfold TK.pauseCurrentTracking TK.sessionActive
  rcases hcu : s.currentUrl with _ | url <;> rcases hst : s.startTime with _ | t
  · simp [hcu, hst]
  · simp [hcu, hst]
  · simp [hcu, hst]
  · simp only [hcu, hst]
    by_cases hf : url = [] ∨ t = 0
    · simp [hf, hcu, hst]
    · by_cases h5 : now - t ≥ 5000 <;> simp [hf, h5, hcu, hst]

theorem pauseCurrentTracking_nodup (s : TK.State) (now : Int) (today : Str)
    (hnd : daysNodup s.pendingData) :
    daysNodup (TK.pauseCurrentTracking s now today).pendingData := by
  unfold TK.pauseCurrentTracking
  rcases hcu : s.currentUrl with _ | url <;> rcases hst : s.startTime with _ | t
  · simpa [hcu, hst] using hnd
  · simpa [hcu, hst] using hnd
  · simpa [hcu, hst] using hnd
  · simp only [hcu, hst]
    by_cases hf : url = [] ∨ t = 0
    · simpa [hf] using hnd
    · simp only [if_neg hf]
      by_cases h5 : now - t ≥ 5000
      · simp only [if_pos h5]
        exact recordTimeSpent_nodup s today url (now - t) now hnd
      · simpa [if_neg h5] using hnd

theorem sessionDelta_of_not_active (cur : Option Str) (st : Option Int) (now : Int)
    (today d u : Str) (h : ¬ TK.sessionActive cur st = true) :
    TK.sessionDelta cur st now today d u = 0 := by
  rcases cur with _ | url <;> rcases st with _ | t <;>
    simp only [TK.sessionActive, TK.sessionDelta]
  have : url = [] ∨ t = 0 := by
    by_contra hc
    exact h (by simp [TK.sessionActive, hc])
  simp [this]

theorem sessionDelta_of_falsy (cur : Option Str) (st : Option Int) (now : Int)
    (today d u : Str) (h : cur = none ∨ cur = some []) :
    TK.sessionDelta cur st now today d u = 0 := by
  rcases h with h | h <;> subst h <;> rcases st with _ | t <;>
    simp [TK.sessionDelta]

theorem run_accounted (events : List TK.Ev) (s : TK.State)
    (hnd : daysNodup s.pendingData) (d u : Str) :
    TK.accounted (TK.run s events) d u
      = TK.accounted s d u
          + TK.qualSum s.currentUrl s.currentTabId s.startTime d u events ∧
    daysNodup (TK.run s events).pendingData := by
  induction events generalizing s with
  | nil => simp [TK.run, TK.qualSum, hnd]
  | cons e rest ih =>
    cases e with
    | pause now today =>
      simp only [TK.run, TK.step]
      have hpa := pauseCurrentTracking_accounted s now today hnd d u
      have hps := pauseCurrentTracking_session s now today
      have hpn := pauseCurrentTracking_nodup s now today hnd
      have key := ih (TK.pauseCurrentTracking s now today) hpn
      refine ⟨?_, key.2⟩
      rw [key.1, hpa, hps.1, hps.2.1, hps.2.2]
      by_cases hact : TK.sessionActive s.currentUrl s.startTime
      · simp only [TK.qualSum, hact, if_true]
        ring
      · rw [sessionDelta_of_not_active s.currentUrl s.startTime now today d u hact]
        simp only [TK.qualSum, hact, Bool.false_eq_true, if_false]
        ring
    | start now today url tabId =>
      simp only [TK.run, TK.step]
      by_cases hsame : s.currentUrl = some (TK.normalizeUrl url) ∧ s.currentTabId = some tabId
      · have hstep : TK.startTrackingUrl s url tabId now today = s := by
          unfold TK.startTrackingUrl
          simp [hsame]
        rw [hstep]
        have key := ih s hnd
        refine ⟨?_, key.2⟩
        rw [key.1]
        simp only [TK.qualSum, if_pos hsame]
      · by_cases htr : ¬ (s.currentUrl = none ∨ s.currentUrl = some [])
        · have hstep : TK.startTrackingUrl s url tabId now today
              = { TK.pauseCurrentTracking s now today with
                  currentUrl := some (TK.normalizeUrl url)
                  currentTabId := some tabId
                  startTime := some now } := by
            unfold TK.startTrackingUrl
            simp [hsame, htr]
          rw [hstep]
          have hpn := pauseCurrentTracking_nodup s now today hnd
          have key := ih
            { TK.pauseCurrentTracking s now today with
              currentUrl := some (TK.normalizeUrl url)
              currentTabId := some tabId
              startTime := some now } (by simpa using hpn)
          refine ⟨?_, key.2⟩
          rw [key.1]
          have hac :
              TK.accounted
                { TK.pauseCurrentTracking s now today with
                  currentUrl := some (TK.normalizeUrl url)
                  currentTabId := some tabId
                  startTime := some now } d u
              = TK.accounted (TK.pauseCurrentTracking s now today) d u := rfl
          rw [hac, pauseCurrentTracking_accounted s now today hnd d u]
          simp only [TK.qualSum, if_neg hsame]
          ring
        · push_neg at htr
          have hstep : TK.startTrackingUrl s url tabId now today
              = { s with
                  currentUrl := some (TK.normalizeUrl url)
                  currentTabId := some tabId
                  startTime := some now } := by
            unfold TK.startTrackingUrl
            simp only [if_neg hsame]
            rw [if_neg (by tauto)]
          rw [hstep]
          have key := ih
            { s with
              currentUrl := some (TK.normalizeUrl url)
              currentTabId := some tabId
              startTime := some now } (by simpa using hnd)
          refine ⟨?_, key.2⟩
          rw [key.1]
          have hac :
              TK.accounted
                { s with
                  currentUrl := some (TK.normalizeUrl url)
                  currentTabId := some tabId
                  startTime := some now } d u = TK.accounted s d u := rfl
          rw [hac]
          simp only [TK.qualSum, if_neg hsame]
          rw [sessionDelta_of_falsy s.currentUrl s.startTime now today d u htr]
          ring
    | doFlush =>
      simp only [TK.run, TK.step]
      have hfs := flushPendingData_session s
      have hfp := flushPendingData_pendingData s
      have key := ih (TK.flushPendingData s) (by rw [hfp]; simp [daysNodup])
      refine ⟨?_, key.2⟩
      rw [key.1, hfs.1, hfs.2.1, hfs.2.2.1, accounted_flushPendingData s hnd]
      simp only [TK.qualSum]

theorem saveTimeData_getMs (st : Storage) (today url : Str) (v : Int) (d u : Str) :
    getMs (getMap (SW.saveTimeData st today url v) (dataKey d)) u
      = getMs (getMap st (dataKey d)) u + (if 0 < v ∧ d = today ∧ url = u then v else 0) := by
  unfold SW.saveTimeData
  by_cases hv : v ≤ 0
  · simp only [if_pos hv]
    rw [if_neg (by intro hc; omega)]
    ring
  · simp only [if_neg hv]
    rw [getMap_setKey]
    by_cases hd : d = today
    · rw [if_pos (by rw [hd]), getMs_bump]
      have hvp : 0 < v := by omega
      by_cases hu : url = u
      · simp [hd, hu, hvp]
      · rw [if_neg (show ¬ u = url from fun he => hu he.symm),
            if_neg (show ¬ (0 < v ∧ d = today ∧ url = u) from fun hc => hu hc.2.2), hd]
    · rw [if_neg (fun he => hd (dataKey_inj he))]
      rw [if_neg (by intro hc; exact hd hc.2.1)]
      ring

/-- C3: for every trace of session-clock events (session starts, session
ends, timer flushes at arbitrary points) and every day `d` and tracking
key `u`, the milliseconds durably recorded after a final flush equal the
sum of the elapsed times of the sessions the trace ended with key `u` on
day `d` that met the minimum-duration threshold (`qualSum`, which is
independent of where and how often `doFlush` occurs): buffering with
additive merge plus additive read-modify-write flushing equals adding
every qualifying delta directly. -/
theorem c3_flush_count_invariance (events : List TK.Ev) (d u : Str) :
    TK.storedMs (TK.flushPendingData (TK.run TK.initState events)) d u
      = TK.qualSum none none none d u events := by
  have h := run_accounted events TK.initState (by simp [TK.initState, daysNodup]) d u
  have hf := flushPendingData_storedMs (TK.run TK.initState events) h.2 d u
  rw [hf]
  rw [show TK.storedMs (TK.run TK.initState events) d u
        + pendingTotal (TK.run TK.initState events).pendingData d u
      = TK.accounted (TK.run TK.initState events) d u from rfl]
  rw [h.1]
  simp [TK.accounted, TK.storedMs, TK.initState, getMap, getMs, lookupA, pendingTotal]

/-- C1 counterexample: the claim fixes the session-end threshold at
`MIN_VISIT_DURATION = 3000` ms, but `TimeTracker.pauseCurrentTracking`
(src/scripts/background.js, line 291) uses 5000 ms: a session of 4000 ms
(started at 1000, ended at 5000) meets the claimed 3-second bar yet is
discarded with no PendingDelta — buffer and storage stay empty. -/
theorem c1_counterexample :
    ((5000 : Int) - 1000 ≥ SW.MIN_VISIT_DURATION_MS) ∧
    (TK.pauseCurrentTracking
        { currentUrl := some (strL "https://example.com/a"), currentTabId := some 1,
          startTime := some 1000, isTracking := true, isChromeActive := true,
          lastSaveTime := 0, pendingData := [], storage := [] }
        5000 (strL "2026-10-11")).pendingData = [] ∧
    (TK.pauseCurrentTracking
        { currentUrl := some (strL "https://example.com/a"), currentTabId := some 1,
          startTime := some 1000, isTracking := true, isChromeActive := true,
          lastSaveTime := 0, pendingData := [], storage := [] }
        5000 (strL "2026-10-11")).storage = [] ∧
    (TK.pauseCurrentTracking
        { currentUrl := some (strL "https://example.com/a"), currentTabId := some 1,
          startTime := some 1000, isTracking := true, isChromeActive := true,
          lastSaveTime := 0, pendingData := [], storage := [] }
        5000 (strL "2026-10-11")).currentUrl = none := by
  refine ⟨by norm_num [SW.MIN_VISIT_DURATION_MS], ?_, ?_, ?_⟩ <;> decide

/-- C1 (amended): every session end emits exactly one delta — of the full
elapsed time, for `(today, key)` — if and only if the elapsed time meets
the iteration's own threshold, and the session is discarded either way;
the threshold is 5000 ms in `TimeTracker.pauseCurrentTracking`
(src/scripts/background.js) and `MIN_VISIT_DURATION_MS = 3000` ms in the
part_004 service worker (`isValidDuration` used by `handleUrlChange`). -/
theorem c1_amended :
    (∀ (s : TK.State) (now : Int) (today url : Str) (t : Int),
      s.currentUrl = some url → s.startTime = some t → url ≠ [] → t ≠ 0 →
      daysNodup s.pendingData →
      (∀ d u : Str,
        TK.accounted (TK.pauseCurrentTracking s now today) d u
          = TK.accounted s d u
              + (if now - t ≥ 5000 ∧ d = today ∧ url = u then now - t else 0)) ∧
      (TK.pauseCurrentTracking s now today).currentUrl = none ∧
      (TK.pauseCurrentTracking s now today).startTime = none) ∧
    (∀ (s : SW.TrackState) (rawUrl : Str) (now : Int) (today : Str),
      SW.isValidUrl rawUrl = true → s.currentUrl ≠ [] → 0 < s.startTime →
      (∀ d u : Str,
        getMs (getMap (SW.handleUrlChange s rawUrl now today).storage (dataKey d)) u
          = getMs (getMap s.storage (dataKey d)) u
              + (if now - s.startTime ≥ SW.MIN_VISIT_DURATION_MS ∧ d = today ∧ s.currentUrl = u
                 then now - s.startTime else 0)) ∧
      (SW.handleUrlChange s rawUrl now today).currentUrl = SW.normalizeUrl rawUrl ∧
      (SW.handleUrlChange s rawUrl now today).startTime = now) := by
  constructor
  · intro s now today url t hcu hst hu ht hnd
    have hact : TK.sessionActive s.currentUrl s.startTime = true := by
      rw [hcu, hst]
      simp [TK.sessionActive, hu, ht]
    have hps := pauseCurrentTracking_session s now today
    refine ⟨?_, ?_, ?_⟩
    · intro d u
      rw [pauseCurrentTracking_accounted s now today hnd d u, hcu, hst]
      simp only [TK.sessionDelta]
      rw [if_neg (by tauto)]
    · rw [hps.1, if_pos hact]
    · rw [hps.2.2, if_pos hact]
  · intro s rawUrl now today hvalid hcu hst
    unfold SW.handleUrlChange
    rw [if_neg (by simp [hvalid])]
    have hdur : SW.getSessionDuration s now = now - s.startTime := by
      unfold SW.getSessionDuration
      rw [if_pos hst]
    by_cases hmin : SW.isValidDuration (SW.getSessionDuration s now)
    · have hcond : s.currentUrl ≠ [] ∧ 0 < s.startTime := ⟨hcu, hst⟩
      refine ⟨?_, by simp [hcond.1, hst], by simp [hcond.1, hst]⟩
      intro d u
      simp only [if_pos (show s.currentUrl ≠ [] ∧ s.startTime > 0 from ⟨hcu, hst⟩), if_pos hmin]
      rw [hdur] at hmin ⊢
      rw [saveTimeData_getMs]
      have h3 : now - s.startTime ≥ SW.MIN_VISIT_DURATION_MS := by
        have := hmin
        unfold SW.isValidDuration at this
        exact of_decide_eq_true this
      rw [if_congr (show (0 < now - s.startTime ∧ d = today ∧ s.currentUrl = u)
            ↔ (now - s.startTime ≥ SW.MIN_VISIT_DURATION_MS ∧ d = today ∧ s.currentUrl = u)
          from by
            constructor
            · intro hc
              exact ⟨h3, hc.2⟩
            · intro hc
              refine ⟨?_, hc.2⟩
              have := hc.1
              simp [SW.MIN_VISIT_DURATION_MS] at this
              omega) rfl rfl]
    · have h3 : ¬ now - s.startTime ≥ SW.MIN_VISIT_DURATION_MS := by
        rw [hdur] at hmin
        intro hc
        exact hmin (by unfold SW.isValidDuration; exact decide_eq_true hc)
      refine ⟨?_, by simp [hcu, hst], by simp [hcu, hst]⟩
      intro d u
      simp only [if_pos (show s.currentUrl ≠ [] ∧ s.startTime > 0 from ⟨hcu, hst⟩),
        if_neg hmin]
      rw [if_neg (by tauto)]
      ring

theorem c1_amended_witness :
    (TK.pauseCurrentTracking
        { currentUrl := some (strL "https://a.com/p"), currentTabId := some 1,
          startTime := some 1000, isTracking := true, isChromeActive := true,
          lastSaveTime := 0, pendingData := [], storage := [] }
        9000 (strL "2026-01-01")).currentUrl = none ∧
    (SW.handleUrlChange
        { currentUrl := strL "https://a.com/p", startTime := 1000, isTracking := true,
          storage := [] }
        (strL "https://b.com/x") 9000 (strL "2026-01-01")).startTime = 9000 := by
  exact ⟨(c1_amended.1 _ 9000 (strL "2026-01-01") (strL "https://a.com/p") 1000 rfl rfl
      (by decide) (by decide) (by simp [daysNodup])).2.1,
    (c1_amended.2 _ (strL "https://b.com/x") 9000 (strL "2026-01-01")
      (by decide) (by decide) (by decide)).2.2⟩

/-- C2 (code bug): `flushPendingData` performs read-modify-write with no
serialization, so two flushes of deltas 1000 ms and 2000 ms for the same
day and key, interleaved read1, read2, write1, write2 from an empty
record, leave 2000 ms — the second write overwrites the first and 1000 ms
is lost — while the claim requires 3000 ms for every interleaving; the
serialized schedule does produce 3000 ms. -/
theorem c2_lost_update :
    (runSchedule 1000 2000 ⟨0, none, none⟩
        [FlushOp.read1, FlushOp.read2, FlushOp.write1, FlushOp.write2]).stored = 2000 ∧
    (2000 : Int) ≠ 3000 ∧
    (runSchedule 1000 2000 ⟨0, none, none⟩
        [FlushOp.read1, FlushOp.write1, FlushOp.read2, FlushOp.write2]).stored = 3000 := by
  refine ⟨rfl, by decide, rfl⟩

/-- C9: a flush whose storage read or write fails is abandoned for the
cycle — buffer and store stay exactly as they were — and the buffer is
emptied precisely when the single write of all updates succeeded. -/
theorem c9_flush_atomicity (readResult : Str → Except Unit DayMap) (writeOk : Bool)
    (s : TK.State) :
    ((∃ e, TK.buildUpdates readResult s.pendingData = Except.error e) ∨ writeOk = false →
      TK.flushPendingDataF readResult writeOk s = s) ∧
    (s.pendingData ≠ [] →
      ((TK.flushPendingDataF readResult writeOk s).pendingData = [] ↔
        writeOk = true ∧ ∃ upd, TK.buildUpdates readResult s.pendingData = Except.ok upd)) := by
  constructor
  · intro hfail
    unfold TK.flushPendingDataF
    by_cases hp : s.pendingData = []
    · simp [hp]
    · simp only [if_neg hp]
      rcases hb : TK.buildUpdates readResult s.pendingData with e | upd
      · rfl
      · rcases hfail with ⟨e, he⟩ | hw
        · rw [hb] at he
          cases he
        · simp [hw]
  · intro hp
    unfold TK.flushPendingDataF
    simp only [if_neg hp]
    rcases hb : TK.buildUpdates readResult s.pendingData with e | upd
    · constructor
      · intro h
        exact absurd h hp
      · rintro ⟨_, upd, hupd⟩
        exact Except.noConfusion hupd
    · by_cases hw : writeOk
      · simp [hw, hb]
      · simp only [Bool.not_eq_true] at hw
        simp [hw, hp]

theorem c9_flush_atomicity_witness :
    TK.flushPendingDataF (fun _ => Except.error ()) true
        { currentUrl := none, currentTabId := none, startTime := none, isTracking := true,
          isChromeActive := true, lastSaveTime := 0,
          pendingData := [(strL "2026-01-01", [(strL "https://a.com/p", 4000)])],
          storage := [] }
      = { currentUrl := none, currentTabId := none, startTime := none, isTracking := true,
          isChromeActive := true, lastSaveTime := 0,
          pendingData := [(strL "2026-01-01", [(strL "https://a.com/p", 4000)])],
          storage := [] } := by
  exact (c9_flush_atomicity (fun _ => Except.error ()) true _).1 (Or.inl ⟨(), rfl⟩)

/-- C10: when no `isTracking` value was ever persisted (absent key, i.e.
`undefined`), tracking defaults to enabled, and every stored value other
than the literal `false` counts as enabled (`isTracking !== false`), in
`SW.loadTrackingState`, `BG.getTrackingState` and `TK.loadTrackingState`
alike; the literal `false` alone disables. -/
theorem c10_default_enabled :
    SW.loadTrackingState TK.JSVal.undef false = true ∧
    BG.getTrackingState TK.JSVal.undef false = true ∧
    (TK.loadTrackingState TK.JSVal.undef none 0).isTracking = true ∧
    (∀ v : TK.JSVal, v ≠ TK.JSVal.boolean false →
      SW.loadTrackingState v false = true ∧ BG.getTrackingState v false = true ∧
      ∀ (timer : Option Int) (now : Int),
        (TK.loadTrackingState v timer now).isTracking = true) ∧
    SW.loadTrackingState (TK.JSVal.boolean false) false = false := by
  refine ⟨rfl, rfl, rfl, ?_, rfl⟩
  intro v hv
  refine ⟨by simp [SW.loadTrackingState, hv], by simp [BG.getTrackingState, hv], ?_⟩
  intro timer now
  rcases timer with _ | t
  · simp [TK.loadTrackingState, hv]
  · by_cases h0 : t = 0
    · simp [TK.loadTrackingState, h0, hv]
    · by_cases hgt : t > now <;> simp [TK.loadTrackingState, h0, hgt, hv]

theorem c10_default_enabled_witness :
    SW.loadTrackingState (TK.JSVal.num 1) false = true := by
  exact (c10_default_enabled.2.2.2.1 (TK.JSVal.num 1) (by decide)).1

/-- C7 counterexample: in `TimeTracker.loadTrackingState`
(src/scripts/background.js, lines 97–100) an already-expired persisted
auto-resume timer is only removed from storage: with stored
`isTracking = false` and a timer that ended at 1000, read at now = 2000,
tracking stays disabled and no resume is fired or armed, where the claim
requires auto-resume to fire and re-enable tracking. -/
theorem c7_counterexample :
    (TK.loadTrackingState (TK.JSVal.boolean false) (some 1000) 2000).isTracking = false ∧
    (TK.loadTrackingState (TK.JSVal.boolean false) (some 1000) 2000).storedTimer = none ∧
    (TK.loadTrackingState (TK.JSVal.boolean false) (some 1000) 2000).scheduledResumeAt
      = none := by
  refine ⟨rfl, rfl, rfl⟩

/-- C7 (amended): in the part_004 service worker, restoring a persisted
active auto-resume record whose `endTime` has passed fires exactly once —
tracking becomes enabled in memory and in storage, the persisted record
is cleared, no timeout stays armed, and the fire count rises by exactly
one; in the `TimeTracker` iteration of background.js the expired record
is merely removed and tracking is not re-enabled (it keeps whatever the
stored flag says). -/
theorem c7_amended :
    (∀ (s : SW.ARState) (now : Int) (t : SW.TimerRecord),
      s.storedTimer = some t → t.active = true → t.endTime ≤ now →
      (SW.restoreAutoResumeTimer s now).isTracking = true ∧
      (SW.restoreAutoResumeTimer s now).storedIsTracking = some true ∧
      (SW.restoreAutoResumeTimer s now).storedTimer = none ∧
      (SW.restoreAutoResumeTimer s now).armedTimeout = none ∧
      (SW.restoreAutoResumeTimer s now).resumeFireCount = s.resumeFireCount + 1) ∧
    (∀ (v : TK.JSVal) (tEnd now : Int), tEnd ≠ 0 → tEnd ≤ now →
      ((TK.loadTrackingState v (some tEnd) now).isTracking = true ↔
          v ≠ TK.JSVal.boolean false) ∧
      (TK.loadTrackingState v (some tEnd) now).storedTimer = none ∧
      (TK.loadTrackingState v (some tEnd) now).scheduledResumeAt = none) := by
  constructor
  · intro s now t hstored hact hexp
    have hne : ¬ t.endTime - now > 0 := by omega
    simp [SW.restoreAutoResumeTimer, hstored, hact, hne, SW.executeAutoResume,
      SW.saveTrackingState]
  · intro v tEnd now h0 hexp
    have hne : ¬ tEnd > now := by omega
    simp [TK.loadTrackingState, h0, hne]

theorem c7_amended_witness :
    (SW.restoreAutoResumeTimer
        { isTracking := false, storedIsTracking := some false,
          storedTimer := some { endTime := 1000, active := true }, armedTimeout := none,
          resumeFireCount := 0 } 2000).isTracking = true ∧
    (TK.loadTrackingState (TK.JSVal.boolean true) (some 1000) 2000).storedTimer = none := by
  exact ⟨(c7_amended.1 _ 2000 _ rfl rfl (by norm_num)).1,
    (c7_amended.2 (TK.JSVal.boolean true) 1000 2000 (by norm_num) (by norm_num)).2.1⟩

/-- C6 counterexample: in `handleUrlChange` (src/unnamed/part_004, lines
198–201) an invalid foreground address is ignored entirely: with an
Active session on `https://a.com/p` started at 1000, the arrival of
`chrome://settings` at 5000 leaves the state completely unchanged — the
prior session is not ended and the clock does not go Idle, where the
claim requires the prior session to end. -/
theorem c6_counterexample :
    SW.handleUrlChange
        { currentUrl := strL "https://a.com/p", startTime := 1000, isTracking := true,
          storage := [] }
        (strL "chrome://settings") 5000 (strL "2026-01-01")
      = { currentUrl := strL "https://a.com/p", startTime := 1000, isTracking := true,
          storage := [] } ∧
    strL "https://a.com/p" ≠ ([] : Str) := by
  exact ⟨by decide, by decide⟩

/-- C6 (amended): in `TimeTracker.handleTabChange` (background.js) an
invalid new foreground address never starts a session and does end the
prior Active session first, emitting its delta under the threshold rule
and leaving the clock Idle.  In the part_004 service worker, an address
with an excluded prefix is ignored entirely — no session starts but the
prior Active session is not ended either — and an address that merely
fails to parse is not excluded at all: it starts a session whose key is
the raw string. -/
theorem c6_amended :
    (∀ (s : TK.State) (now : Int) (today url purl : Str) (pt : Int) (tabId : Int),
      s.isTracking = true → s.isChromeActive = true →
      TK.isValidUrl url = false →
      s.currentUrl = some purl → purl ≠ [] → s.startTime = some pt → pt ≠ 0 →
      daysNodup s.pendingData →
      (TK.handleTabChange s now today (some url) tabId).currentUrl = none ∧
      (TK.handleTabChange s now today (some url) tabId).startTime = none ∧
      (∀ d u : Str,
        TK.accounted (TK.handleTabChange s now today (some url) tabId) d u
          = TK.accounted s d u
              + (if now - pt ≥ 5000 ∧ d = today ∧ purl = u then now - pt else 0))) ∧
    (∀ (s : SW.TrackState) (url : Str) (now : Int) (today : Str),
      SW.isValidUrl url = false → SW.handleUrlChange s url now today = s) ∧
    (∀ (s : SW.TrackState) (url : Str) (now : Int) (today : Str),
      SW.isValidUrl url = true → parseUrl url = none →
      (SW.handleUrlChange s url now today).currentUrl = url ∧
      (SW.handleUrlChange s url now today).startTime = now) := by
  refine ⟨?_, ?_, ?_⟩
  · intro s now today url purl pt tabId hT hC hv hcu hpu hst hpt hnd
    have hstep : TK.handleTabChange s now today (some url) tabId
        = TK.pauseCurrentTracking s now today := by
      unfold TK.handleTabChange
      rw [if_neg (by simp [hT, hC])]
      simp [hv]
    have hact : TK.sessionActive s.currentUrl s.startTime = true := by
      rw [hcu, hst]
      simp [TK.sessionActive, hpu, hpt]
    have hps := pauseCurrentTracking_session s now today
    rw [hstep]
    refine ⟨by rw [hps.1, if_pos hact], by rw [hps.2.2, if_pos hact], ?_⟩
    intro d u
    rw [pauseCurrentTracking_accounted s now today hnd d u, hcu, hst]
    simp only [TK.sessionDelta]
    rw [if_neg (by tauto)]
  · intro s url now today hinv
    unfold SW.handleUrlChange
    rw [if_pos (by simp [hinv])]
  · intro s url now today hval hparse
    have hnorm : SW.normalizeUrl url = url := by
      unfold SW.normalizeUrl
      by_cases hu : url = []
      · simp [hu]
      · simp [hu, hparse]
    unfold SW.handleUrlChange
    rw [if_neg (by simp [hval])]
    exact ⟨hnorm, rfl⟩

theorem c6_amended_witness :
    (TK.handleTabChange
        { currentUrl := some (strL "https://a.com/p"), currentTabId := some 1,
          startTime := some 1000, isTracking := true, isChromeActive := true,
          lastSaveTime := 0, pendingData := [], storage := [] }
        9000 (strL "2026-01-01") (some (strL "chrome://settings")) 2).currentUrl = none ∧
    SW.handleUrlChange
        { currentUrl := strL "", startTime := 0, isTracking := true, storage := [] }
        (strL "chrome://x") 5 (strL "2026-01-01")
      = { currentUrl := strL "", startTime := 0, isTracking := true, storage := [] } ∧
    (SW.handleUrlChange
        { currentUrl := strL "", startTime := 0, isTracking := true, storage := [] }
        (strL "not a url") 5 (strL "2026-01-01")).currentUrl = strL "not a url" := by
  exact ⟨(c6_amended.1 _ 9000 (strL "2026-01-01") (strL "chrome://settings")
      (strL "https://a.com/p") 1000 2 rfl rfl (by decide) rfl (by decide) rfl (by decide)
      (by simp [daysNodup])).1,
    c6_amended.2.1 _ (strL "chrome://x") 5 (strL "2026-01-01") (by decide),
    (c6_amended.2.2 _ (strL "not a url") 5 (strL "2026-01-01") (by decide) (by decide)).1⟩

theorem takeWhile_append_all (p : Char → Bool) (as bs : Str) (h : as.all p = true) :
    (as ++ bs).takeWhile p = as ++ bs.takeWhile p := by
  induction as with
  | nil => simp
  | cons a as ih =>
    simp only [List.all_cons, Bool.and_eq_true] at h
    simp [List.takeWhile_cons, h.1, ih h.2]

theorem dropWhile_append_all (p : Char → Bool) (as bs : Str) (h : as.all p = true) :
    (as ++ bs).dropWhile p = bs.dropWhile p := by
  induction as with
  | nil => simp
  | cons a as ih =>
    simp only [List.all_cons, Bool.and_eq_true] at h
    simp [List.dropWhile_cons, h.1, ih h.2]

theorem takeWhile_of_head_false (p : Char → Bool) (a : Char) (as : Str) (h : p a = false) :
    (a :: as).takeWhile p = [] := by
  simp [List.takeWhile_cons, h]

theorem dropWhile_of_head_false (p : Char → Bool) (a : Char) (as : Str) (h : p a = false) :
    (a :: as).dropWhile p = a :: as := by
  simp [List.dropWhile_cons, h]

theorem splitAtColon_append (sch rest : Str) (h : ∀ c ∈ sch, ¬ c = ':') :
    splitAtColon (sch ++ ':' :: rest) = some (sch, rest) := by
  induction sch with
  | nil => simp [splitAtColon]
  | cons c cs ih =>
    have hc : ¬ c = ':' := h c (List.mem_cons_self _ _)
    simp only [List.cons_append, splitAtColon, if_neg hc, List.append_eq]
    rw [ih (fun x hx => h x (List.mem_cons_of_mem _ hx))]

theorem schemeChar_ne_colon {c : Char} (h : isSchemeChar c = true) : ¬ c = ':' := by
  intro he
  subst he
  exact absurd h (by decide)

theorem parseUrl_assemble (c0 : Char) (srest host path qf : Str)
    (hc0 : isAlphaChar c0 = true)
    (hall : (c0 :: srest).all isSchemeChar = true)
    (hhost : host.all hostChar = true)
    (hpath : path.all pathChar = true)
    (hpshape : path = [] ∨ ∃ pr, path = '/' :: pr)
    (hqf : qf = [] ∨ (∃ t, qf = '?' :: t) ∨ (∃ t, qf = '#' :: t))
    (hsp : isSpecial (c0 :: srest) = true → host ≠ []) :
    parseUrl ((c0 :: srest) ++ ':' :: '/' :: '/' :: (host ++ (path ++ qf)))
      = some ⟨c0 :: srest, host,
          (if isSpecial (c0 :: srest) = true ∧ path = [] then ['/'] else path),
          suffixSearch qf, suffixFrag qf⟩ := by
  have hcolon : ∀ c ∈ (c0 :: srest), ¬ c = ':' := fun c hc =>
    schemeChar_ne_colon (List.all_eq_true.mp hall c hc)
  have hgate : (isAlphaChar c0 && (c0 :: srest).all isSchemeChar) = true := by
    simp [hc0, hall]
  have hqf4 : qf.takeWhile hostChar = [] ∧ qf.dropWhile hostChar = qf ∧
      qf.takeWhile pathChar = [] ∧ qf.dropWhile pathChar = qf := by
    rcases hqf with rfl | ⟨t, rfl⟩ | ⟨t, rfl⟩
    · simp
    · exact ⟨takeWhile_of_head_false hostChar '?' t rfl,
        dropWhile_of_head_false hostChar '?' t rfl,
        takeWhile_of_head_false pathChar '?' t rfl,
        dropWhile_of_head_false pathChar '?' t rfl⟩
    · exact ⟨takeWhile_of_head_false hostChar '#' t rfl,
        dropWhile_of_head_false hostChar '#' t rfl,
        takeWhile_of_head_false pathChar '#' t rfl,
        dropWhile_of_head_false pathChar '#' t rfl⟩
  have hpq : (path ++ qf).takeWhile hostChar = [] ∧ (path ++ qf).dropWhile hostChar
      = path ++ qf := by
    rcases hpshape with rfl | ⟨pr, rfl⟩
    · rw [List.nil_append]
      exact ⟨hqf4.1, hqf4.2.1⟩
    · simp only [List.cons_append]
      exact ⟨takeWhile_of_head_false hostChar '/' (pr ++ qf) rfl,
        dropWhile_of_head_false hostChar '/' (pr ++ qf) rfl⟩
  have hhost_take : (host ++ (path ++ qf)).takeWhile hostChar = host := by
    rw [takeWhile_append_all _ _ _ hhost, hpq.1, List.append_nil]
  have hhost_drop : (host ++ (path ++ qf)).dropWhile hostChar = path ++ qf := by
    rw [dropWhile_append_all _ _ _ hhost, hpq.2]
  have hpath_take : (path ++ qf).takeWhile pathChar = path := by
    rw [takeWhile_append_all _ _ _ hpath, hqf4.2.2.1, List.append_nil]
  have hpath_drop : (path ++ qf).dropWhile pathChar = qf := by
    rw [dropWhile_append_all _ _ _ hpath, hqf4.2.2.2]
  by_cases hspc : isSpecial (c0 :: srest) = true
  · have hh := hsp hspc
    have hds : (host ++ (path ++ qf)).dropWhile (fun c => decide (c = '/'))
        = host ++ (path ++ qf) := by
      obtain ⟨h0, hr, rfl⟩ := List.exists_cons_of_ne_nil hh
      have hh0 : hostChar h0 = true := List.all_eq_true.mp hhost h0 (List.mem_cons_self _ _)
      have hne : ¬ h0 = '/' := by
        intro he
        subst he
        exact absurd hh0 (by decide)
      simp only [List.cons_append]
      exact dropWhile_of_head_false _ _ _ (decide_eq_false hne)
    simp only [parseUrl,
      splitAtColon_append (c0 :: srest) ('/' :: '/' :: (host ++ (path ++ qf))) hcolon,
      hgate, not_true, if_false, hspc, if_true, hds, hhost_take, hhost_drop, hpath_take,
      hpath_drop, hh, true_and, and_false, false_and, Bool.not_eq_true]
  · simp only [parseUrl,
      splitAtColon_append (c0 :: srest) ('/' :: '/' :: (host ++ (path ++ qf))) hcolon,
      hgate, not_true, if_false, hspc, hhost_take, hhost_drop, hpath_take,
      hpath_drop, false_and, and_false, Bool.false_eq_true]

theorem head_dropWhile_false (p : Char → Bool) (l : Str) (a : Char) (as : Str)
    (h : l.dropWhile p = a :: as) : p a = false := by
  induction l with
  | nil => cases h
  | cons x xs ih =>
    rw [List.dropWhile_cons] at h
    by_cases hp : p x = true
    · rw [if_pos hp] at h
      exact ih h
    · rw [if_neg hp] at h
      injection h with h1 _
      subst h1
      simpa using hp

theorem hostChar_false_cases {c : Char} (h : hostChar c = false) :
    c = '/' ∨ c = '?' ∨ c = '#' := by
  unfold hostChar at h
  simp at h
  tauto

theorem takeWhile_path_shape (l : Str) :
    List.takeWhile pathChar (List.dropWhile hostChar l) = [] ∨
    ∃ pr, List.takeWhile pathChar (List.dropWhile hostChar l) = '/' :: pr := by
  rcases hah : List.dropWhile hostChar l with _ | ⟨a, as⟩
  · exact Or.inl rfl
  · have ha := head_dropWhile_false hostChar l a as hah
    rcases hostChar_false_cases ha with rfl | rfl | rfl
    · exact Or.inr ⟨List.takeWhile pathChar as, rfl⟩
    · exact Or.inl (takeWhile_of_head_false pathChar '?' as rfl)
    · exact Or.inl (takeWhile_of_head_false pathChar '#' as rfl)

theorem parseUrl_inv (url : Str) (u : UrlParts) (h : parseUrl url = some u) :
    (∃ c0 srest, u.scheme = c0 :: srest ∧ isAlphaChar c0 = true ∧
      (c0 :: srest).all isSchemeChar = true) ∧
    u.host.all hostChar = true ∧
    u.pathname.all pathChar = true ∧
    (u.pathname = [] ∨ ∃ pr, u.pathname = '/' :: pr) ∧
    (isSpecial u.scheme = true → u.host ≠ [] ∧ u.pathname ≠ []) := by
  unfold parseUrl at h
  split at h
  · cases h
  · cases h
  · rename_i c0 srest rest heq
    split at h
    · cases h
    · rename_i hgate
      split at h
      · rename_i r2
        dsimp only at h
        split at h
        · rename_i hsp
          simp only [hsp, true_and] at h
          by_cases hhe : List.takeWhile hostChar
              (List.dropWhile (fun c => decide (c = '/')) r2) = []
          · rw [if_pos hhe] at h
            cases h
          · rw [if_neg hhe] at h
            have hgate' := (Bool.and_eq_true _ _).mp (not_not.mp hgate)
            by_cases hpe : List.takeWhile pathChar (List.dropWhile hostChar
                (List.dropWhile (fun c => decide (c = '/')) r2)) = []
            · rw [if_pos hpe] at h
              injection h with h
              subst h
              exact ⟨⟨c0, srest, rfl, hgate'.1, hgate'.2⟩, List.all_takeWhile,
                rfl, Or.inr ⟨[], rfl⟩, fun _ => ⟨hhe, List.cons_ne_nil _ _⟩⟩
            · rw [if_neg hpe] at h
              injection h with h
              subst h
              exact ⟨⟨c0, srest, rfl, hgate'.1, hgate'.2⟩, List.all_takeWhile,
                List.all_takeWhile, takeWhile_path_shape _, fun _ => ⟨hhe, hpe⟩⟩
        · rename_i hsp
          simp only [hsp, false_and, if_false] at h
          have hgate' := (Bool.and_eq_true _ _).mp (not_not.mp hgate)
          injection h with h
          subst h
          exact ⟨⟨c0, srest, rfl, hgate'.1, hgate'.2⟩, List.all_takeWhile,
            List.all_takeWhile, takeWhile_path_shape _, fun hc => absurd hc hsp⟩
      · cases h

theorem sw_normalizeUrl_idem (url : Str) :
    SW.normalizeUrl (SW.normalizeUrl url) = SW.normalizeUrl url := by
  by_cases hu : url = []
  · simp [SW.normalizeUrl, hu]
  rcases hp : parseUrl url with _ | u
  · have h1 : SW.normalizeUrl url = url := by
      unfold SW.normalizeUrl
      rw [if_neg hu, hp]
    rw [h1, h1]
  · obtain ⟨⟨c0, srest, hsch, hc0, hall⟩, hhost, hpath, hpshape, hsp⟩ := parseUrl_inv url u hp
    have h1 : SW.normalizeUrl url = u.scheme ++ strL "://" ++ u.host ++ u.pathname := by
      unfold SW.normalizeUrl
      rw [if_neg hu, hp]
    have hshape : u.scheme ++ strL "://" ++ u.host ++ u.pathname
        = (c0 :: srest) ++ ':' :: '/' :: '/' :: (u.host ++ (u.pathname ++ [])) := by
      rw [hsch]
      simp [strL]
    have hparse2 := parseUrl_assemble c0 srest u.host u.pathname [] hc0 hall hhost hpath
      hpshape (Or.inl rfl) (fun hs => (hsp (by rw [hsch]; exact hs)).1)
    have hite : (if isSpecial (c0 :: srest) = true ∧ u.pathname = [] then ['/']
        else u.pathname) = u.pathname := by
      by_cases hs : isSpecial (c0 :: srest) = true
      · rw [if_neg]
        intro hc
        exact (hsp (by rw [hsch]; exact hs)).2 hc.2
      · rw [if_neg]
        intro hc
        exact hs hc.1
    rw [h1]
    unfold SW.normalizeUrl
    rw [hshape, if_neg (by simp), hparse2]
    simp only [hite]
    simp [strL]

theorem tk_key_invariance (c0 : Char) (srest host path q f : Str)
    (hc0 : isAlphaChar c0 = true)
    (hall : (c0 :: srest).all isSchemeChar = true)
    (hsp : isSpecial (c0 :: srest) = true)
    (hhost : host.all hostChar = true)
    (hh : host ≠ [])
    (hwww : ¬ (strL "www.").isPrefixOf host = true)
    (hpath : path.all pathChar = true)
    (hpshape : path = [] ∨ (∃ pr, path = '/' :: pr) ∧ path.getLast? ≠ some '/') :
    TK.normalizeUrl ((c0 :: srest) ++ ':' :: '/' :: '/' ::
        ((strL "www." ++ host) ++ ((path ++ ['/']) ++ ('?' :: (q ++ '#' :: f)))))
      = TK.normalizeUrl ((c0 :: srest) ++ ':' :: '/' :: '/' :: (host ++ (path ++ []))) := by
  have hwwwall : (strL "www.").all hostChar = true := by decide
  have hhostL : (strL "www." ++ host).all hostChar = true := by
    rw [List.all_append, hwwwall, hhost]
    rfl
  have hpathL : (path ++ ['/']).all pathChar = true := by
    rw [List.all_append, hpath]
    rfl
  have hpshapeL : (path ++ ['/']) = [] ∨ ∃ pr, (path ++ ['/']) = '/' :: pr := by
    rcases hpshape with rfl | ⟨⟨pr, rfl⟩, _⟩
    · exact Or.inr ⟨[], rfl⟩
    · exact Or.inr ⟨pr ++ ['/'], by simp⟩
  have hparseL := parseUrl_assemble c0 srest (strL "www." ++ host) (path ++ ['/'])
    ('?' :: (q ++ '#' :: f)) hc0 hall hhostL hpathL hpshapeL
    (Or.inr (Or.inl ⟨q ++ '#' :: f, rfl⟩)) (fun _ => by simp [strL])
  have hpshapeR : path = [] ∨ ∃ pr, path = '/' :: pr := by
    rcases hpshape with rfl | ⟨hpr, _⟩
    · exact Or.inl rfl
    · exact Or.inr hpr
  have hparseR := parseUrl_assemble c0 srest host path [] hc0 hall hhost hpath hpshapeR
    (Or.inl rfl) (fun _ => hh)
  have hpre : (strL "www.").isPrefixOf (strL "www." ++ host) = true := by
    rw [List.isPrefixOf_iff_prefix]
    exact List.prefix_append _ _
  have hdrop : (strL "www." ++ host).drop 4 = host := by
    have h2 := List.drop_left (strL "www.") host
    rwa [show (strL "www.").length = 4 from rfl] at h2
  have hroot : strL "/" = ['/'] := rfl
  unfold TK.normalizeUrl
  rw [hparseL, hparseR]
  rcases hpshape with rfl | ⟨⟨pr, hpr⟩, hlast⟩
  · simp [hsp, hpre, hdrop, hwww, hroot]
  · subst hpr
    simp [hsp, hpre, hdrop, hwww, hroot, hlast, List.getLast?_concat, List.dropLast_concat]
    have h3 : ('/' :: (pr ++ ['/'])).getLast? = some '/' := by
      rw [← List.cons_append]
      exact List.getLast?_concat _
    rw [if_pos h3, ← List.cons_append, List.dropLast_concat]

/-- C5 counterexample: `TimeTracker.normalizeUrl` strips exactly one
leading `www.` per call, so it is not idempotent: for
`https://www.www.example.com/a` one application yields
`https://www.example.com/a`, a second application strips again and yields
`https://example.com/a`. -/
theorem c5_counterexample :
    TK.normalizeUrl (TK.normalizeUrl (strL "https://www.www.example.com/a"))
      ≠ TK.normalizeUrl (strL "https://www.www.example.com/a") := by
  decide

/-- C5 (amended): normalization is a pure function of its input, and
`TrackingState.normalizeUrl` (src/unnamed/part_004) is idempotent on
every input address, well-formed or not; `TimeTracker.normalizeUrl`
(background.js) is not idempotent when stripping `www.` exposes another
`www.` prefix. -/
theorem c5_amended (url : Str) :
    SW.normalizeUrl (SW.normalizeUrl url) = SW.normalizeUrl url := by
  exact sw_normalizeUrl_idem url

/-- C4 counterexample: `TrackingState.normalizeUrl` (src/unnamed/part_004)
drops only the query string and fragment and keeps the `www.` prefix and
trailing slash, so the claim's example fails on it:
`https://www.example.com/a/?x=1#y` maps to `https://www.example.com/a/`,
not to the key of `https://example.com/a`. -/
theorem c4_counterexample :
    SW.normalizeUrl (strL "https://www.example.com/a/?x=1#y")
      ≠ SW.normalizeUrl (strL "https://example.com/a") := by
  decide

/-- C4 (amended): `TimeTracker.normalizeUrl` (background.js) drops the
query string and fragment, strips a single leading `www.`, strips a
single trailing `/` unless the path is exactly `/`, and reassembles
`scheme://host path`; two addresses differing only in
query/fragment/www-prefix/trailing-slash therefore map to the same
TrackingKey under it, and in particular the claim's example holds for it.
`TrackingState.normalizeUrl` (part_004) only drops query and fragment, so
the same-key property fails there (see the counterexample). -/
theorem c4_amended :
    (TK.normalizeUrl (strL "https://www.example.com/a/?x=1#y")
        = TK.normalizeUrl (strL "https://example.com/a")) ∧
    (∀ (c0 : Char) (srest host path q f : Str),
      isAlphaChar c0 = true → (c0 :: srest).all isSchemeChar = true →
      isSpecial (c0 :: srest) = true →
      host.all hostChar = true → host ≠ [] →
      ¬ (strL "www.").isPrefixOf host = true →
      path.all pathChar = true →
      (path = [] ∨ (∃ pr, path = '/' :: pr) ∧ path.getLast? ≠ some '/') →
      TK.normalizeUrl ((c0 :: srest) ++ ':' :: '/' :: '/' ::
          ((strL "www." ++ host) ++ ((path ++ ['/']) ++ ('?' :: (q ++ '#' :: f)))))
        = TK.normalizeUrl ((c0 :: srest) ++ ':' :: '/' :: '/' :: (host ++ (path ++ [])))) := by
  constructor
  · decide
  · intro c0 srest host path q f hc0 hall hsp hhost hh hwww hpath hpshape
    exact tk_key_invariance c0 srest host path q f hc0 hall hsp hhost hh hwww hpath hpshape

theorem c4_amended_witness :
    TK.normalizeUrl (('h' :: strL "ttps") ++ ':' :: '/' :: '/' ::
        ((strL "www." ++ strL "example.com") ++
          ((strL "/a" ++ ['/']) ++ ('?' :: (strL "x=1" ++ '#' :: strL "y")))))
      = TK.normalizeUrl (('h' :: strL "ttps") ++ ':' :: '/' :: '/' ::
          (strL "example.com" ++ (strL "/a" ++ []))) := by
  exact c4_amended.2 'h' (strL "ttps") (strL "example.com") (strL "/a") (strL "x=1")
    (strL "y") (by decide) (by decide) (by decide) (by decide) (by decide) (by decide)
    (by decide) (Or.inr ⟨⟨strL "a", by decide⟩, by decide⟩)

theorem digitChar_lt_aux : ∀ a, a < 10 → ∀ b, b < 10 →
    ((digitChar a < digitChar b) ↔ a < b) := by decide

theorem digitChar_eq_aux : ∀ a, a < 10 → ∀ b, b < 10 →
    ((digitChar a = digitChar b) ↔ a = b) := by decide

theorem natDigits_lt10 (n : Nat) (h : n < 10) : natDigits n = [digitChar n] := by
  unfold natDigits
  rw [dif_pos h]

theorem natDigits_two (n : Nat) (h1 : 10 ≤ n) (h2 : n < 100) :
    natDigits n = [digitChar (n / 10), digitChar (n % 10)] := by
  unfold natDigits
  rw [dif_neg (by omega)]
  rw [natDigits_lt10 (n / 10) (by omega)]
  rfl

theorem natDigits_four (y : Nat) (h1 : 1000 ≤ y) (h2 : y < 10000) :
    natDigits y = [digitChar (y / 1000), digitChar (y / 100 % 10),
      digitChar (y / 10 % 10), digitChar (y % 10)] := by
  have e2 : y / 10 / 10 = y / 100 := by
    rw [Nat.div_div_eq_div_mul]
  have e3 : y / 100 / 10 = y / 1000 := by
    rw [Nat.div_div_eq_div_mul]
  unfold natDigits
  rw [dif_neg (by omega)]
  unfold natDigits
  rw [dif_neg (by omega)]
  unfold natDigits
  rw [dif_neg (by omega)]
  rw [natDigits_lt10 (y / 10 / 10 / 10) (by omega)]
  rw [e2, e3]
  simp

theorem pad2_render (n : Nat) (h2 : n < 100) :
    jsPadStart2 (natDigits n) = [digitChar (n / 10), digitChar (n % 10)] := by
  by_cases h : n < 10
  · rw [natDigits_lt10 n h]
    unfold jsPadStart2
    rw [show n / 10 = 0 from by omega, show n % 10 = n from by omega]
    rfl
  · rw [natDigits_two n (by omega) h2]
    rfl

theorem lexLt_cons_iff (a b : Char) (as bs : Str) :
    lexLt (a :: as) (b :: bs) = true ↔ (a < b ∨ (a = b ∧ lexLt as bs = true)) := by
  simp [lexLt, Bool.or_eq_true, Bool.and_eq_true, decide_eq_true_eq, beq_iff_eq]

theorem lexLt_cons_same (c : Char) (s t : Str) :
    lexLt (c :: s) (c :: t) = true ↔ lexLt s t = true := by
  rw [lexLt_cons_iff]
  simp [lt_irrefl]

theorem lexLt_fixed2 (a b a' b' : Nat) (s t : Str)
    (ha : a < 10) (hb : b < 10) (ha' : a' < 10) (hb' : b' < 10) :
    lexLt (digitChar a :: digitChar b :: s) (digitChar a' :: digitChar b' :: t) = true ↔
      (10 * a + b < 10 * a' + b' ∨ (a = a' ∧ b = b' ∧ lexLt s t = true)) := by
  rw [lexLt_cons_iff, lexLt_cons_iff]
  rw [digitChar_lt_aux a ha a' ha', digitChar_eq_aux a ha a' ha',
      digitChar_lt_aux b hb b' hb', digitChar_eq_aux b hb b' hb']
  constructor
  · rintro (h | ⟨rfl, h | ⟨rfl, h⟩⟩)
    · left
      omega
    · left
      omega
    · right
      exact ⟨rfl, rfl, h⟩
  · rintro (h | ⟨rfl, rfl, h⟩)
    · by_cases hab : a < a'
      · exact Or.inl hab
      · right
        refine ⟨by omega, Or.inl (by omega)⟩
    · right
      exact ⟨rfl, Or.inr ⟨rfl, h⟩⟩

theorem lexLt_block (a b : Nat) (s t : Str) (ha : a < 100) (hb : b < 100) :
    lexLt (digitChar (a / 10) :: digitChar (a % 10) :: s)
        (digitChar (b / 10) :: digitChar (b % 10) :: t) = true ↔
      (a < b ∨ (a = b ∧ lexLt s t = true)) := by
  rw [lexLt_fixed2 (a / 10) (a % 10) (b / 10) (b % 10) s t
    (by omega) (by omega) (by omega) (by omega)]
  by_cases hlt : lexLt s t = true
  · simp only [hlt, and_true]
    omega
  · simp only [hlt, Bool.false_eq_true, and_false, or_false]
    omega

theorem natDigits_four' (y : Nat) (h1 : 1000 ≤ y) (h2 : y < 10000) :
    natDigits y = digitChar (y / 100 / 10) :: digitChar (y / 100 % 10) ::
      digitChar (y % 100 / 10) :: digitChar (y % 100 % 10) :: [] := by
  rw [natDigits_four y h1 h2]
  rw [show y / 1000 = y / 100 / 10 from by rw [Nat.div_div_eq_div_mul]]
  rw [show y / 10 % 10 = y % 100 / 10 from (Nat.mod_mul_right_div_self y 10 10).symm]
  rw [show y % 10 = y % 100 % 10 from (Nat.mod_mod_of_dvd y (by norm_num)).symm]

theorem lexLt_year (y y' : Nat) (s t : Str)
    (hy1 : 1000 ≤ y) (hy2 : y < 10000) (hy1' : 1000 ≤ y') (hy2' : y' < 10000) :
    lexLt (natDigits y ++ s) (natDigits y' ++ t) = true ↔
      (y < y' ∨ (y = y' ∧ lexLt s t = true)) := by
  rw [natDigits_four' y hy1 hy2, natDigits_four' y' hy1' hy2']
  simp only [List.cons_append, List.nil_append]
  rw [lexLt_block (y / 100) (y' / 100) _ _ (by omega) (by omega)]
  rw [lexLt_block (y % 100) (y' % 100) _ _ (by omega) (by omega)]
  by_cases hlt : lexLt s t = true
  · simp only [hlt, and_true]
    constructor
    · rintro (h | ⟨h1, h | h⟩) <;> omega
    · intro h
      rcases h with h | h <;> omega
  · simp only [hlt, Bool.false_eq_true, and_false, or_false]
    omega

theorem isDigitChar_digitChar (x : Nat) : isDigitChar (digitChar x) = true := by
  unfold digitChar
  split <;> rfl

theorem isDateShape_render (dt : JsDate) (h1 : 1000 ≤ dt.year) (h2 : dt.year < 10000)
    (hm : dt.month0 < 12) (hd : dt.day < 100) :
    isDateShape (getLocalDateString dt) = true := by
  unfold getLocalDateString
  rw [natDigits_four' dt.year h1 h2, pad2_render (dt.month0 + 1) (by omega),
      pad2_render dt.day hd]
  simp only [List.cons_append, List.nil_append]
  unfold isDateShape
  simp [isDigitChar_digitChar]

theorem renderLt_iff (a b : JsDate)
    (hay1 : 1000 ≤ a.year) (hay2 : a.year < 10000) (ham : a.month0 < 12) (had : a.day < 100)
    (hby1 : 1000 ≤ b.year) (hby2 : b.year < 10000) (hbm : b.month0 < 12)
    (hbd : b.day < 100) :
    lexLt (getLocalDateString a) (getLocalDateString b) = true ↔ dateTripleLt a b := by
  unfold getLocalDateString
  rw [pad2_render (a.month0 + 1) (by omega), pad2_render (b.month0 + 1) (by omega),
      pad2_render a.day had, pad2_render b.day hbd]
  simp only [List.cons_append, List.nil_append]
  rw [lexLt_year a.year b.year _ _ hay1 hay2 hby1 hby2]
  rw [lexLt_cons_same]
  rw [lexLt_block (a.month0 + 1) (b.month0 + 1) _ _ (by omega) (by omega)]
  rw [lexLt_cons_same]
  rw [lexLt_block a.day b.day _ _ had hbd]
  unfold dateTripleLt
  simp only [show lexLt ([] : Str) [] = false from rfl, Bool.false_eq_true, and_false,
    or_false]
  constructor
  · rintro (h | ⟨h1, h | ⟨h2, h⟩⟩)
    · exact Or.inl h
    · exact Or.inr ⟨h1, Or.inl (by omega)⟩
    · exact Or.inr ⟨h1, Or.inr ⟨by omega, h⟩⟩
  · rintro (h | ⟨h1, h | ⟨h2, h⟩⟩)
    · exact Or.inl h
    · exact Or.inr ⟨h1, Or.inl (by omega)⟩
    · exact Or.inr ⟨h1, Or.inr ⟨by omega, h⟩⟩

/-- The part_004 sweep: `calculateDataCutoffDate` is the first day of the
calendar month `DATA_RETENTION_MONTHS = 3` months before the current one
(rolling into the previous year when needed), `findDataKeysToRemove`
collects a day record exactly when its date key is strictly before that
cutoff — lexicographic string comparison agrees with calendar order on
the rendered `YYYY-MM-DD` keys — and therefore retains every record
whose month is M-2 or later. -/
theorem sw_retention (today rec : JsDate)
    (hty1 : 1001 ≤ today.year) (hty2 : today.year < 10000) (htm : today.month0 < 12)
    (hry1 : 1000 ≤ rec.year) (hry2 : rec.year < 10000) (hrm : rec.month0 < 12)
    (hrd1 : 1 ≤ rec.day) (hrd2 : rec.day ≤ 31) :
    (SW.findDataKeysToRemove [strL "data_" ++ getLocalDateString rec]
        (SW.calculateDataCutoffDate today)
      = [strL "data_" ++ getLocalDateString rec]
      ↔ dateTripleLt rec (SW.cutoffDate today)) ∧
    (monthFromMMinus2 rec today →
      SW.findDataKeysToRemove [strL "data_" ++ getLocalDateString rec]
          (SW.calculateDataCutoffDate today) = []) := by
  have hpre : (strL "data_").isPrefixOf (strL "data_" ++ getLocalDateString rec) = true := by
    rw [List.isPrefixOf_iff_prefix]
    exact List.prefix_append _ _
  have hdrop : (strL "data_" ++ getLocalDateString rec).drop 5 = getLocalDateString rec := by
    have h2 := List.drop_left (strL "data_") (getLocalDateString rec)
    rwa [show (strL "data_").length = 5 from rfl] at h2
  have hshape := isDateShape_render rec hry1 hry2 hrm (by omega)
  have hcb : 1000 ≤ (SW.cutoffDate today).year ∧ (SW.cutoffDate today).year < 10000 ∧
      (SW.cutoffDate today).month0 < 12 ∧ (SW.cutoffDate today).day < 100 := by
    unfold SW.cutoffDate jsDateMonthsBack SW.DATA_RETENTION_MONTHS
    by_cases h3 : today.month0 ≥ 3 <;> simp [h3] <;> omega
  have hiff := renderLt_iff rec (SW.cutoffDate today) hry1 hry2 hrm (by omega)
    hcb.1 hcb.2.1 hcb.2.2.1 hcb.2.2.2
  have hcuteq : SW.calculateDataCutoffDate today
      = getLocalDateString (SW.cutoffDate today) := rfl
  have hf : SW.findDataKeysToRemove [strL "data_" ++ getLocalDateString rec]
      (SW.calculateDataCutoffDate today)
      = if lexLt (getLocalDateString rec) (SW.calculateDataCutoffDate today) = true
        then [strL "data_" ++ getLocalDateString rec] else [] := by
    unfold SW.findDataKeysToRemove
    simp [List.filter, hpre, hdrop, hshape]
    cases hb : lexLt (getLocalDateString rec) (SW.calculateDataCutoffDate today) <;>
      simp [hb]
  constructor
  · rw [hf, hcuteq]
    by_cases hlex : lexLt (getLocalDateString rec)
        (getLocalDateString (SW.cutoffDate today)) = true
    · rw [if_pos hlex]
      exact ⟨fun _ => hiff.mp hlex, fun _ => rfl⟩
    · rw [if_neg hlex]
      exact ⟨fun h => absurd h (by simp), fun ht => absurd (hiff.mpr ht) hlex⟩
  · intro hm2
    have hnot : ¬ dateTripleLt rec (SW.cutoffDate today) := by
      unfold monthFromMMinus2 jsDateMonthsBack at hm2
      unfold dateTripleLt SW.cutoffDate jsDateMonthsBack SW.DATA_RETENTION_MONTHS
      by_cases h2 : today.month0 ≥ 2 <;> by_cases h3 : today.month0 ≥ 3 <;>
        simp [h2, h3] at hm2 ⊢ <;> omega
    rw [hf, hcuteq, if_neg (fun hlex => hnot (hiff.mp hlex))]

/-- Two dates in the same calendar month differ in civil day number
exactly by their day-of-month difference. -/
theorem civilDays_same_month (a b : JsDate) (hy : a.year = b.year)
    (hm : a.month0 = b.month0) : civilDays a + b.day = civilDays b + a.day := by
  unfold civilDays
  rw [hy, hm]
  omega

/-- C8, counterexample: run on 2026-10-15 (at noon UTC), the cited
`TimeTracker.cleanupOldData` removes the record for 2026-07-05 even
though that key is not strictly before 2026-07-01, the first day of
month M-3 that the claim — and part_004's `calculateDataCutoffDate` —
takes as the cutoff. -/
theorem c8_counterexample :
    SW.cutoffDate ⟨2026, 9, 15⟩ = ⟨2026, 6, 1⟩ ∧
    ¬ dateTripleLt ⟨2026, 6, 5⟩ ⟨2026, 6, 1⟩ ∧
    TK.cleanupRemoves ⟨2026, 9, 15⟩ 43200000 ⟨2026, 6, 5⟩ = true := by
  refine ⟨rfl, by decide, by decide⟩

/-- C8: the two cited sweeps use different cutoffs. part_004 computes the
cutoff as the first day of the calendar month `DATA_RETENTION_MONTHS = 3`
months before the current one and removes a day record exactly when its
date key is strictly before that cutoff (lexicographic string order
agreeing with calendar order on the rendered keys), retaining every
record of month M-2 or later. `TimeTracker.cleanupOldData`
(background.js) instead rolls the cutoff back with `setMonth(-3)`,
keeping today's day-of-month and time of day, and removes the records
whose parsed date lies strictly below that rolling instant: within the
cutoff's own month M-3, records dated before today's day-of-month are
removed and records dated after it are retained, whenever the current
instant lies within a day of the rolled-back date's UTC midnight. -/
theorem c8_amended (today rec : JsDate) (tod : Int)
    (hty1 : 1001 ≤ today.year) (hty2 : today.year < 10000) (htm : today.month0 < 12)
    (hry1 : 1000 ≤ rec.year) (hry2 : rec.year < 10000) (hrm : rec.month0 < 12)
    (hrd1 : 1 ≤ rec.day) (hrd2 : rec.day ≤ 31)
    (htod1 : -86400000 < tod) (htod2 : tod < 86400000) :
    ((SW.findDataKeysToRemove [strL "data_" ++ getLocalDateString rec]
        (SW.calculateDataCutoffDate today)
      = [strL "data_" ++ getLocalDateString rec]
      ↔ dateTripleLt rec (SW.cutoffDate today)) ∧
    (monthFromMMinus2 rec today →
      SW.findDataKeysToRemove [strL "data_" ++ getLocalDateString rec]
          (SW.calculateDataCutoffDate today) = [])) ∧
    (rec.year = (TK.threeMonthsAgo today).year →
      rec.month0 = (TK.threeMonthsAgo today).month0 →
      (rec.day < (TK.threeMonthsAgo today).day →
        TK.cleanupRemoves today tod rec = true) ∧
      ((TK.threeMonthsAgo today).day < rec.day →
        TK.cleanupRemoves today tod rec = false)) := by
  refine ⟨sw_retention today rec hty1 hty2 htm hry1 hry2 hrm hrd1 hrd2, ?_⟩
  intro hy hm
  have hsame := civilDays_same_month rec (TK.threeMonthsAgo today) hy hm
  constructor
  · intro hd
    unfold TK.cleanupRemoves TK.cleanupCutoff TK.msPerDay
    simp only [decide_eq_true_eq]
    omega
  · intro hd
    unfold TK.cleanupRemoves TK.cleanupCutoff TK.msPerDay
    rw [decide_eq_false_iff_not]
    omega

theorem c8_amended_witness :
    TK.cleanupRemoves ⟨2026, 9, 15⟩ 43200000 ⟨2026, 6, 5⟩ = true ∧
    TK.cleanupRemoves ⟨2026, 9, 15⟩ 43200000 ⟨2026, 6, 25⟩ = false ∧
    SW.findDataKeysToRemove [strL "data_" ++ getLocalDateString ⟨2026, 2, 28⟩]
        (SW.calculateDataCutoffDate ⟨2026, 9, 15⟩)
      = [strL "data_" ++ getLocalDateString ⟨2026, 2, 28⟩] := by
  refine ⟨?_, ?_, ?_⟩
  · exact ((c8_amended ⟨2026, 9, 15⟩ ⟨2026, 6, 5⟩ 43200000 (by decide) (by decide)
      (by decide) (by decide) (by decide) (by decide) (by decide) (by decide)
      (by decide) (by decide)).2 (by decide) (by decide)).1 (by decide)
  · exact ((c8_amended ⟨2026, 9, 15⟩ ⟨2026, 6, 25⟩ 43200000 (by decide) (by decide)
      (by decide) (by decide) (by decide) (by decide) (by decide) (by decide)
      (by decide) (by decide)).2 (by decide) (by decide)).2 (by decide)
  · exact ((c8_amended ⟨2026, 9, 15⟩ ⟨2026, 2, 28⟩ 43200000 (by decide) (by decide)
      (by decide) (by decide) (by decide) (by decide) (by decide) (by decide)
      (by decide) (by decide)).1).1.mpr (by decide)
